import Mathlib

/-!
Shallow embedding of SmartSpend's two core engines:

* the debt payoff simulator (`simulateDebtPayoff` in the unnamed simulator module),
* the habit pattern detector and reminder matcher (`buildHabitPatterns`,
  `findDueHabitReminder` in `src/services/storageService.ts`),

together with the JS primitives they rely on (dates, `Math.round`, the djb2
rolling hash, stable `Array.prototype.sort`).

Modelling conventions:
* JS numbers are embedded as `ℚ` (the spec treats monetary values as unit-less
  reals); values produced by `Math.round` are `ℤ`.
* A JS `Date` is a `LocalDT` record of civil fields (year, 0-based month, day,
  milliseconds past local midnight) on a fixed-offset local time axis; epoch
  arithmetic goes through `daysFromCivilYMD` (proleptic Gregorian, as JS).
* Ambient environment reads (`new Date()` defaults, `toLocaleDateString`) are
  explicit parameters (`sysNow`, `render`) of the embedded functions.
* `Array.prototype.sort` (stable, ES2019) is modelled by the stable insertion
  sort `sortByJs`; `comparator(a,b) ≤ 0` becomes a boolean `le`.
* Mutation of the `SimDebt` working copies through the sorted alias array is
  modelled positionally: the surplus pass folds over the sorted list of live
  indices, updating the schedule with `List.set`.
-/

namespace SmartSpend

attribute [local semireducible] Rat.add Rat.mul Rat.sub Rat.inv

/-! ### JS numeric primitives -/

/-- `Math.round` on a (real-valued) argument: round half toward +∞. -/
def jsRound (q : ℚ) : ℤ := ⌊q + 1/2⌋

/-- Reduce an integer to the range of a 32-bit two's-complement integer
(`ToInt32` of the JS spec). -/
def toInt32 (z : ℤ) : ℤ := (z + 2 ^ 31).emod (2 ^ 32) - 2 ^ 31

/-- The unsigned reading `z >>> 0`. -/
def toUint32 (z : ℤ) : ℕ := (z.emod (2 ^ 32)).toNat

/-- JS `a ^ b`: both operands coerced to int32, bitwise xor, int32 result. -/
def xor32 (a b : ℤ) : ℤ :=
  toInt32 (Int.ofNat (Nat.xor (toUint32 a) (toUint32 b)))

/-- `Math.ceil (x / n)` for an integer `x` and positive integer `n`. -/
def jsCeilDiv (x n : ℤ) : ℤ := -((-x).fdiv n)

/-- Digit characters for base-36 rendering (`Number.prototype.toString(36)`). -/
def base36Digit (n : ℕ) : Char :=
  if n < 10 then Char.ofNat (48 + n) else Char.ofNat (87 + n)

/-- Base-36 digit list of a natural number; `fuel` bounds the digit count
(any `fuel > log₃₆ n` gives the full rendering). -/
def toBase36Aux : ℕ → ℕ → List Char
  | 0, _ => []
  | fuel + 1, n =>
    if n < 36 then [base36Digit n]
    else toBase36Aux fuel (n / 36) ++ [base36Digit (n % 36)]

/-- Base-36 rendering of a natural number, lowercase digits. -/
def toBase36 (n : ℕ) : String := String.mk (toBase36Aux (n + 1) n)

/-- JS decimal rendering of an integer (`String(n)` for integral numbers). -/
def intToJsString (z : ℤ) : String :=
  if z < 0 then "-" ++ toString (-z).toNat else toString z.toNat

/-! ### JS dates on a fixed-offset local axis -/

abbrev DAY_MS : ℤ := 24 * 60 * 60 * 1000

/-- A JS `Date` holding a valid civil instant: `year`, 0-based `month`
(0–11), 1-based `day`, and milliseconds past local midnight. -/
structure LocalDT where
  year : ℤ
  month : ℤ
  day : ℤ
  msOfDay : ℤ
  deriving DecidableEq, Repr

/-- Proleptic-Gregorian leap year, as JS `Date` uses. -/
def isLeapYear (y : ℤ) : Bool := y.emod 4 = 0 ∧ (y.emod 100 ≠ 0 ∨ y.emod 400 = 0)

/-- Days in month `m` (0-based, assumed normalized into 0–11) of year `y`. -/
def daysInMonth (y m : ℤ) : ℤ :=
  if m = 1 then (if isLeapYear y then 29 else 28)
  else if m = 3 ∨ m = 5 ∨ m = 8 ∨ m = 10 then 30
  else 31

/-- Day number since 1970-01-01 of civil `(y, m, d)` with 0-based month
(months outside 0–11 are first carried into the year, day is an offset from
the first of the month — exactly the JS `Date` field semantics). -/
def daysFromCivilYMD (y m d : ℤ) : ℤ :=
  let ym := y + m.fdiv 12
  let mn := m.emod 12
  let y1 := if mn ≤ 1 then ym - 1 else ym
  let era := y1.fdiv 400
  let yoe := y1 - era * 400
  let mp := (mn + 10).emod 12
  let doy := (153 * mp + 2).fdiv 5 + (d - 1)
  let doe := yoe * 365 + yoe.fdiv 4 - yoe.fdiv 100 + doy
  era * 146097 + doe - 719468

/-- `Date.prototype.getTime()` on the fixed-offset local axis. -/
def toMs (dt : LocalDT) : ℤ :=
  daysFromCivilYMD dt.year dt.month dt.day * DAY_MS + dt.msOfDay

/-- The day number of the local midnight containing `dt`. -/
def epochDay (dt : LocalDT) : ℤ := daysFromCivilYMD dt.year dt.month dt.day

/-- `getDay()`: 0 = Sunday. 1970-01-01 was a Thursday (= 4). -/
def getDay (dt : LocalDT) : ℤ := (epochDay dt + 4).emod 7

/-- `getHours() * 60 + getMinutes()`. -/
def minutesFromMidnight (dt : LocalDT) : ℤ := dt.msOfDay.fdiv 60000

/-- `setHours(0,0,0,0)` on a copy. -/
def startOfDay (dt : LocalDT) : LocalDT := { dt with msOfDay := 0 }

/-- `new Date(y, m, d)` at midnight. Months are carried into the year;
a day outside the month is carried with a single borrow/carry step, which
is the exact JS behaviour on the source's reachable range `-5 ≤ d ≤ 62`
(days always originate from `getDate()` of a valid date, shifted by at
most {-6, …, +31}; one adjacent month always absorbs the overflow). -/
def mkDateJs (y m d : ℤ) : LocalDT :=
  let y1 := y + m.fdiv 12
  let m1 := m.emod 12
  if d < 1 then
    let m' := m1 - 1
    let y2 := y1 + m'.fdiv 12
    let m2 := m'.emod 12
    ⟨y2, m2, daysInMonth y2 m2 + d, 0⟩
  else if d ≤ daysInMonth y1 m1 then ⟨y1, m1, d, 0⟩
  else
    let m' := m1 + 1
    let y2 := y1 + m'.fdiv 12
    let m2 := m'.emod 12
    ⟨y2, m2, d - daysInMonth y1 m1, 0⟩

/-- `addMonths` of the simulator:
`new Date(base.getFullYear(), base.getMonth() + months, base.getDate())`. -/
def addMonths (base : LocalDT) (months : ℤ) : LocalDT :=
  mkDateJs base.year (base.month + months) base.day

/-- `setDate(n)` on a copy of a midnight date (single borrow/carry; the
source only calls this with `getDate() + diff`, `diff ∈ [-6, 0]`). -/
def setDateJs (dt : LocalDT) (newDay : ℤ) : LocalDT :=
  mkDateJs dt.year dt.month newDay

/-- Zero-padded decimal rendering helpers. -/
def pad2 (z : ℤ) : String :=
  if z < 10 then "0" ++ toString z.toNat else toString z.toNat

def pad3 (z : ℤ) : String :=
  if z < 10 then "00" ++ toString z.toNat
  else if z < 100 then "0" ++ toString z.toNat
  else toString z.toNat

def pad4 (z : ℤ) : String :=
  if z < 10 then "000" ++ toString z.toNat
  else if z < 100 then "00" ++ toString z.toNat
  else if z < 1000 then "0" ++ toString z.toNat
  else toString z.toNat

/-- `toLocaleDateString('en-CA')`: the `YYYY-MM-DD` rendering. -/
def toLocalISODate (dt : LocalDT) : String :=
  pad4 dt.year ++ "-" ++ pad2 (dt.month + 1) ++ "-" ++ pad2 dt.day

/-- `toISOString()` (the model's local axis has offset 0). -/
def toISOStringJs (dt : LocalDT) : String :=
  pad4 dt.year ++ "-" ++ pad2 (dt.month + 1) ++ "-" ++ pad2 dt.day ++ "T" ++
  pad2 (dt.msOfDay.fdiv 3600000) ++ ":" ++ pad2 ((dt.msOfDay.fdiv 60000).emod 60) ++ ":" ++
  pad2 ((dt.msOfDay.fdiv 1000).emod 60) ++ "." ++ pad3 (dt.msOfDay.emod 1000) ++ "Z"

/-! ### Computable string primitives

Core `String.replace`/`String.split` and the `String` order are defined by
well-founded recursion or opaque instances; the embedding uses structural
character-list versions with the same behaviour. -/

/-- Three-way character comparison (code-point order, as JS string `<`). -/
def charCmp (c d : Char) : Ordering :=
  if c < d then .lt else if d < c then .gt else .eq

/-- Lexicographic three-way comparison of character lists. -/
def listCharCmp : List Char → List Char → Ordering
  | [], [] => .eq
  | [], _ :: _ => .lt
  | _ :: _, [] => .gt
  | c :: cs, d :: ds =>
    match charCmp c d with
    | .eq => listCharCmp cs ds
    | o => o

/-- `a what ≤ b` in JS string order (`localeCompare` modelled as code-point
order). -/
def strLeJs (a b : String) : Bool := listCharCmp a.data b.data ≠ Ordering.gt

/-- `String.prototype.split` on a character predicate (empty segments kept,
as in JS). -/
def splitChars (p : Char → Bool) (cs : List Char) : List (List Char) :=
  cs.foldr
    (fun c acc =>
      if p c then [] :: acc
      else
        match acc with
        | [] => [[c]]
        | g :: gs => (c :: g) :: gs)
    [[]]

/-- Remove every (non-overlapping, left-to-right) occurrence of `pat`, as
`String.prototype.replace` with a global pattern and empty replacement;
`fuel` bounds the scan (the input length always suffices). -/
def stripSubAux (pat : List Char) : ℕ → List Char → List Char
  | 0, cs => cs
  | _ + 1, [] => []
  | fuel + 1, c :: cs =>
    if pat.isPrefixOf (c :: cs) then stripSubAux pat fuel (List.drop pat.length (c :: cs))
    else c :: stripSubAux pat fuel cs

def stripSub (pat cs : List Char) : List Char := stripSubAux pat cs.length cs

/-! ### Stable sort (`Array.prototype.sort`) -/

/-- Insert `x` in front of the first element it is `le` to: the insertion
step of a stable insertion sort. -/
def insertSorted (le : α → α → Bool) (x : α) : List α → List α
  | [] => [x]
  | y :: ys => if le x y then x :: y :: ys else y :: insertSorted le x ys

/-- Stable sort modelling `Array.prototype.sort(cmp)` where
`le a b = (cmp a b ≤ 0)` for a consistent comparator. -/
def sortByJs (le : α → α → Bool) : List α → List α
  | [] => []
  | x :: xs => insertSorted le x (sortByJs le xs)

/-! ### Debt payoff simulator (`simulateDebtPayoff`) -/

inductive DebtType where
  | payable
  deriving DecidableEq, Repr

/-- The caller-owned `Debt` entity (fields read by the simulator; a missing
or falsy `dueDate` string, and an unparsable one, are modelled as `none`). -/
structure Debt where
  id : String
  amount : ℚ
  dueDate : Option LocalDT
  type : DebtType
  isPaid : Bool
  interestRate : Option ℚ
  minimumPayment : Option ℚ

inductive DebtPayoffStrategy where
  | avalanche
  | snowball
  | dueDate
  deriving DecidableEq, Repr

structure DebtPayoffSimulationOptions where
  strategy : DebtPayoffStrategy
  extraPrincipalBudget : Option ℚ := none
  startDate : Option LocalDT := none
  maxMonths : Option ℤ := none
  minPaymentFallback : Option (Debt → ℚ) := none

structure DebtPayoffPerDebtResult where
  payoffMonth : ℕ
  payoffDate : LocalDT
  totalInterestPaid : ℤ
  deriving DecidableEq, Repr

structure DebtPayoffSimulationResult where
  warning : Option String
  months : Option ℕ
  payoffDate : Option LocalDT
  payoffDateLabel : Option String
  monthlyPrincipalBudget : ℚ
  totalInterestPaid : ℤ
  perDebt : List (String × DebtPayoffPerDebtResult)
  deriving DecidableEq, Repr

/-- The simulator's private working copy of a debt. -/
structure SimDebt where
  id : String
  balance : ℚ
  rate : ℚ
  minPay : ℚ
  dueDate : Option LocalDT
  deriving DecidableEq, Repr

instance : Inhabited SimDebt := ⟨⟨"", 0, 0, 0, none⟩⟩

/-- `getOrderComparator(strategy)`, rendered as `comparator a b ≤ 0`. -/
def orderLe (strategy : DebtPayoffStrategy) (a b : SimDebt) : Bool :=
  match strategy with
  | .avalanche => b.rate - a.rate ≤ 0
  | .snowball => a.balance - b.balance ≤ 0
  | .dueDate =>
    match a.dueDate, b.dueDate with
    | some x, some y => if toMs x ≠ toMs y then toMs x ≤ toMs y else strLeJs a.id b.id
    | some _, none => true
    | none, some _ => false
    | none, none => strLeJs a.id b.id

/-- First-match lookup in an insertion-ordered association list
(a JS object / `Map` read). -/
def alistFind (k : String) : List (String × α) → Option α
  | [] => none
  | (k', v) :: rest => if k' = k then some v else alistFind k rest

/-- Update the first matching key (a JS `obj[k] = f obj[k]` on a present key;
an absent key is left alone — unreachable in the source, whose maps are
pre-seeded with every debt id). -/
def alistUpdate (k : String) (f : α → α) : List (String × α) → List (String × α)
  | [] => []
  | (k', v) :: rest =>
    if k' = k then (k', f v) :: rest else (k', v) :: alistUpdate k f rest

/-- Insert-or-replace, keeping first-insertion order (`Object.fromEntries`). -/
def alistPut (k : String) (v : α) : List (String × α) → List (String × α)
  | [] => [(k, v)]
  | (k', v') :: rest =>
    if k' = k then (k', v) :: rest else (k', v') :: alistPut k v rest

abbrev PerDebtInterest := List (String × ℤ)
abbrev PerDebtResults := List (String × DebtPayoffPerDebtResult)

/-- Lines 63–71: filter to payable, unpaid, positive-balance debts and copy
each into a fresh `SimDebt` (the only objects the simulation ever mutates). -/
def scheduledOf (debts : List Debt) (minFallback : Debt → ℚ) : List SimDebt :=
  (debts.filter fun d =>
      decide (d.type = DebtType.payable ∧ d.isPaid = false ∧ 0 < d.amount)).map
    fun d =>
      { id := d.id
        balance := d.amount
        rate := d.interestRate.getD 0
        minPay := max 0 (d.minimumPayment.getD (minFallback d))
        dueDate := d.dueDate }

/-- Lines 112–118: accrue monthly interest on each open balance into the
per-debt accumulator and the running total. -/
def interestPass : List SimDebt → PerDebtInterest × ℤ → PerDebtInterest × ℤ
  | [], acc => acc
  | d :: ds, (pdi, total) =>
    if d.balance ≤ 1/2 then interestPass ds (pdi, total)
    else
      let monthlyRate := d.rate / 100 / 12
      let interest := if 0 < monthlyRate then jsRound (d.balance * monthlyRate) else 0
      interestPass ds (alistUpdate d.id (· + interest) pdi, total + interest)

/-- The write-once `perDebt` record of lines 127–134 / 145–152. -/
def recordPayoff (d : SimDebt) (months : ℕ) (payoffDate : LocalDT)
    (pdi : PerDebtInterest) (pdr : PerDebtResults) : PerDebtResults :=
  if (alistFind d.id pdr).isNone then
    pdr ++ [(d.id, { payoffMonth := months
                     payoffDate := payoffDate
                     totalInterestPaid := (alistFind d.id pdi).getD 0 })]
  else pdr

/-- Lines 120–135: pay fixed minimum principal payments in natural order.
The `Bool` is ghost instrumentation: whether the `remainingPrincipal ≤ 0`
break was taken at a still-open debt. -/
def minPaymentPass (months : ℕ) (payoffDate : LocalDT) (pdi : PerDebtInterest) :
    List SimDebt → ℚ → PerDebtResults → List SimDebt × ℚ × PerDebtResults × Bool
  | [], rem, pdr => ([], rem, pdr, false)
  | d :: ds, rem, pdr =>
    if d.balance ≤ 1/2 then
      let rest := minPaymentPass months payoffDate pdi ds rem pdr
      (d :: rest.1, rest.2)
    else if rem ≤ 0 then (d :: ds, rem, pdr, true)
    else
      let pay := min (min d.minPay d.balance) rem
      let d' := { d with balance := d.balance - pay }
      let pdr1 := if d'.balance ≤ 1/2 then recordPayoff d' months payoffDate pdi pdr else pdr
      let rest := minPaymentPass months payoffDate pdi ds (rem - pay) pdr1
      (d' :: rest.1, rest.2)

/-- Indices of still-open debts, in schedule order (the `filter` of line 139). -/
def aliveIdxs (sched : List SimDebt) : List ℕ :=
  (List.range sched.length).filter fun i => 1/2 < (sched.getD i default).balance

/-- Lines 140–153: roll surplus into the ordered open debts. The sorted
array of line 139 holds aliases of the schedule's objects, so the pass is
modelled over sorted indices, updating the schedule in place. -/
def surplusPass (months : ℕ) (payoffDate : LocalDT) (pdi : PerDebtInterest) :
    List ℕ → List SimDebt → ℚ → PerDebtResults → List SimDebt × ℚ × PerDebtResults
  | [], sched, rem, pdr => (sched, rem, pdr)
  | i :: is, sched, rem, pdr =>
    if rem ≤ 0 then (sched, rem, pdr)
    else
      let d := sched.getD i default
      let pay := min d.balance rem
      let d' := { d with balance := d.balance - pay }
      let pdr1 := if d'.balance ≤ 1/2 then recordPayoff d' months payoffDate pdi pdr else pdr
      surplusPass months payoffDate pdi is (sched.set i d') (rem - pay) pdr1

/-- The state threaded through the month loop. -/
structure SimState where
  scheduled : List SimDebt
  pdi : PerDebtInterest
  totalInterestPaid : ℤ
  pdr : PerDebtResults
  brokeEarly : Bool
  deriving Repr

/-- `payoffMonthToDate` of line 104. -/
def payoffMonthToDate (startDate : LocalDT) (payoffMonth : ℕ) : LocalDT :=
  addMonths startDate (max 0 ((payoffMonth : ℤ) - 1))

/-- One iteration of the `while` loop (lines 107–155), for month `months`. -/
def monthPass (strategy : DebtPayoffStrategy) (budget : ℚ) (startDate : LocalDT)
    (months : ℕ) (st : SimState) : SimState :=
  let payoffDate := payoffMonthToDate startDate months
  let it := interestPass st.scheduled (st.pdi, st.totalInterestPaid)
  let pdi1 := it.1
  let total1 := it.2
  let mp := minPaymentPass months payoffDate pdi1 st.scheduled budget st.pdr
  let sched1 := mp.1
  let rem1 := mp.2.1
  let sp :=
    if 1/2 < rem1 then
      let ordered := sortByJs
        (fun i j => orderLe strategy (sched1.getD i default) (sched1.getD j default))
        (aliveIdxs sched1)
      surplusPass months payoffDate pdi1 ordered sched1 rem1 mp.2.2.1
    else (sched1, rem1, mp.2.2.1)
  { scheduled := sp.1
    pdi := pdi1
    totalInterestPaid := total1
    pdr := sp.2.2
    brokeEarly := st.brokeEarly || mp.2.2.2 }

/-- Is any scheduled balance still above the 0.5 payoff threshold? -/
def anyOpen (sched : List SimDebt) : Bool := sched.any fun d => 1/2 < d.balance

/-- The month loop: `while (months < maxMonths && scheduled.some(open))`.
`fuel` is the number of remaining permitted iterations
(`maxMonths - months`); the returned `ℕ` is the final `months` counter. -/
def simLoop (strategy : DebtPayoffStrategy) (budget : ℚ) (startDate : LocalDT) :
    ℕ → ℕ → SimState → ℕ × SimState
  | 0, months, st => (months, st)
  | fuel + 1, months, st =>
    if anyOpen st.scheduled then
      simLoop strategy budget startDate fuel (months + 1)
        (monthPass strategy budget startDate (months + 1) st)
    else (months, st)

/-- The full simulator with its final internal state (ghost-observable).
`sysNow` models the ambient `new Date()` read of the `startDate` default;
`render` models `toLocaleDateString('default', {month:'long', year:'numeric'})`. -/
def simulateFull (sysNow : LocalDT) (render : LocalDT → String)
    (debts : List Debt) (options : DebtPayoffSimulationOptions) :
    DebtPayoffSimulationResult × ℕ × SimState :=
  let maxMonths := options.maxMonths.getD 600
  let startDate := options.startDate.getD sysNow
  let extraPrincipalBudget := max 0 (options.extraPrincipalBudget.getD 0)
  let minFallback := options.minPaymentFallback.getD fun _ => 0
  let scheduled := scheduledOf debts minFallback
  if scheduled.isEmpty then
    ({ warning := none
       months := some 0
       payoffDate := some startDate
       payoffDateLabel := some (render startDate)
       monthlyPrincipalBudget := 0
       totalInterestPaid := 0
       perDebt := [] }, 0,
     ⟨scheduled, [], 0, [], false⟩)
  else
    let baseMinTotal := (scheduled.map (·.minPay)).sum
    let monthlyPrincipalBudget := baseMinTotal + extraPrincipalBudget
    if monthlyPrincipalBudget ≤ 0 then
      ({ warning := some "Set monthly payments to project payoff"
         months := none
         payoffDate := none
         payoffDateLabel := none
         monthlyPrincipalBudget := 0
         totalInterestPaid := 0
         perDebt := [] }, 0,
       ⟨scheduled, [], 0, [], false⟩)
    else
      let pdi0 : PerDebtInterest := scheduled.foldl (fun m d => alistPut d.id 0 m) []
      let st0 : SimState := ⟨scheduled, pdi0, 0, [], false⟩
      let lp := simLoop options.strategy monthlyPrincipalBudget startDate
        (max 0 maxMonths).toNat 0 st0
      let months := lp.1
      let stF := lp.2
      if anyOpen stF.scheduled then
        ({ warning := some "Payment plan too long; increase payments"
           months := none
           payoffDate := none
           payoffDateLabel := none
           monthlyPrincipalBudget := monthlyPrincipalBudget
           totalInterestPaid := stF.totalInterestPaid
           perDebt := stF.pdr }, months, stF)
      else
        let payoffDate := payoffMonthToDate startDate months
        ({ warning := none
           months := some months
           payoffDate := some payoffDate
           payoffDateLabel := some (render payoffDate)
           monthlyPrincipalBudget := monthlyPrincipalBudget
           totalInterestPaid := stF.totalInterestPaid
           perDebt := stF.pdr }, months, stF)

/-- `simulateDebtPayoff(debts, options)`. -/
def simulateDebtPayoff (sysNow : LocalDT) (render : LocalDT → String)
    (debts : List Debt) (options : DebtPayoffSimulationOptions) :
    DebtPayoffSimulationResult :=
  (simulateFull sysNow render debts options).1

/-! ### Habit engine data model (`storageService.ts`) -/

inductive Category where
  | Food | Transport | Housing | Utilities | Entertainment | Health
  | Shopping | Groceries | Debt | Savings | Other
  | Salary | Overtime | Allowance | Freelance | Gift | Investment
  deriving DecidableEq, Repr

/-- The string value of each `Category` enum member. -/
def Category.str : Category → String
  | .Food => "Food" | .Transport => "Transport" | .Housing => "Housing"
  | .Utilities => "Utilities" | .Entertainment => "Entertainment"
  | .Health => "Health" | .Shopping => "Shopping" | .Groceries => "Groceries"
  | .Debt => "Debt" | .Savings => "Savings" | .Other => "Other"
  | .Salary => "Salary" | .Overtime => "Overtime" | .Allowance => "Allowance"
  | .Freelance => "Freelance" | .Gift => "Gift" | .Investment => "Investment"

inductive TransactionType where
  | expense
  | income
  deriving DecidableEq, Repr

/-- A transaction as the habit engine reads it; `date` is the parsed
`new Date(t.date)`, `created_at` is `none` when absent or unparsable. -/
structure Transaction where
  id : String
  amount : ℚ
  category : Category
  date : LocalDT
  description : String
  type : TransactionType
  created_at : Option LocalDT := none
  deriving DecidableEq, Repr

instance : Inhabited Transaction :=
  ⟨⟨"", 0, Category.Other, ⟨1970, 0, 1, 0⟩, "", TransactionType.expense, none⟩⟩

inductive HabitIntervalType where
  | daily | weekly | monthly | unknown
  deriving DecidableEq, Repr

structure HabitPattern where
  habitId : String
  category : Category
  merchantKey : Option String
  amountBucket : Option ℤ
  amountMedian : ℤ
  amountMad : Option ℤ
  intervalType : HabitIntervalType
  intervalDaysMedian : Option ℤ
  dowProb : List ℚ
  timeWindowStartMin : Option ℤ
  timeWindowEndMin : Option ℤ
  active : Bool
  updatedAt : String
  deriving DecidableEq, Repr

structure HabitReminderState where
  habitId : String
  lastRemindedDate : Option String
  snoozedUntil : Option String
  dismissCountRecent : ℤ
  deriving DecidableEq, Repr

structure HabitReminderCandidate where
  habitId : String
  title : String
  message : String
  category : Category
  description : String
  amount : ℤ
  deriving DecidableEq, Repr

/-! ### Habit engine helpers -/

/-- JS truthiness of a nullable string: `null` and `''` are falsy. -/
def jsTruthyStr : Option String → Bool
  | none => false
  | some s => s ≠ ""

/-- `clamp` of the source, on rationals. -/
def clampQ (n mn mx : ℚ) : ℚ := max mn (min mx n)

/-- `clamp` applied to integer-valued arguments. -/
def clampI (n mn mx : ℤ) : ℤ := max mn (min mx n)

/-- `diffDays` on two epoch-millisecond instants: the difference of their
local-midnight day numbers (`Math.round` is exact there since both
`startOfDay` times are whole multiples of a day on a fixed-offset axis). -/
def diffDaysMs (a b : ℤ) : ℤ := a.fdiv DAY_MS - b.fdiv DAY_MS

/-- `diffDays` on two parsed dates. -/
def diffDays (a b : LocalDT) : ℤ := diffDaysMs (toMs a) (toMs b)

/-- `median` of the source (0 on an empty list). -/
def median (nums : List ℚ) : ℚ :=
  if nums.length = 0 then 0
  else
    let sorted := sortByJs (fun a b : ℚ => a - b ≤ 0) nums
    let mid := nums.length / 2
    if nums.length % 2 = 1 then sorted.getD mid 0
    else (sorted.getD (mid - 1) 0 + sorted.getD mid 0) / 2

/-- `mad`: median absolute deviation, `null` below 3 samples. -/
def mad (nums : List ℚ) : Option ℚ :=
  if nums.length < 3 then none
  else
    let m := median nums
    some (median (nums.map fun n => |n - m|))

/-- `quantile` with linear interpolation between order statistics. -/
def quantile (nums : List ℚ) (q : ℚ) : ℚ :=
  if nums.length = 0 then 0
  else
    let sorted := sortByJs (fun a b : ℚ => a - b ≤ 0) nums
    let pos := ((nums.length : ℚ) - 1) * clampQ q 0 1
    let base := ⌊pos⌋.toNat
    let rest := pos - ⌊pos⌋
    if base + 1 < sorted.length then
      sorted.getD base 0 + rest * (sorted.getD (base + 1) 0 - sorted.getD base 0)
    else sorted.getD base 0

/-- The whitespace class of the JS `\s` as it occurs in descriptions. -/
def isJsSpace (c : Char) : Bool :=
  c = ' ' ∨ c = '\t' ∨ c = '\n' ∨ c = '\r' ∨ c.toNat = 11 ∨ c.toNat = 12

/-- A character kept (not blanked) by the `[^a-z぀-ヿ一-龯\s]`
replacement. -/
def keepChar (c : Char) : Bool :=
  ('a' ≤ c ∧ c ≤ 'z') ∨ (0x3040 ≤ c.toNat ∧ c.toNat ≤ 0x30ff) ∨
    (0x4e00 ≤ c.toNat ∧ c.toNat ≤ 0x9faf) ∨ isJsSpace c

/-- `normalizeText`: lower-case, strip `(recurring)`, blank the disallowed
characters, collapse whitespace runs and trim. The collapse-and-trim of
`.replace(/\s+/g,' ').trim()` is rendered as joining the whitespace-split
words with single spaces, which is the same string. -/
def normalizeText (s : String) : String :=
  let lowered := stripSub "(recurring)".data (s.data.map Char.toLower)
  let blanked := lowered.map fun c => if keepChar c then c else ' '
  let words := ((splitChars isJsSpace blanked).map String.mk).filter (· ≠ "")
  String.intercalate " " words

/-- The stop-word set of `merchantKeyFromDescription`. -/
def stopWords : List String :=
  ["buy", "paid", "payment", "fee", "tax", "card", "cash", "for", "to", "at", "in"]

/-- `merchantKeyFromDescription`. -/
def merchantKeyFromDescription (description : String) : Option String :=
  let normalized := normalizeText description
  if normalized = "" then none
  else
    let parts := ((splitChars (· = ' ') normalized.data).map String.mk).filter (· ≠ "")
    if parts.length = 0 then none
    else
      let filtered := parts.filter fun p => ¬ stopWords.contains p
      let chosen := String.intercalate " " ((if filtered.length ≠ 0 then filtered else parts).take 2)
      if 3 ≤ chosen.length then some chosen else none

/-- `amountBucket`: coarse rounding keyed on magnitude. -/
def amountBucket (amount : ℚ) : ℤ :=
  let a := |amount|
  if a < 5000 then jsRound (a / 100) * 100
  else if a < 20000 then jsRound (a / 500) * 500
  else jsRound (a / 1000) * 1000

/-- `stableHash`: the djb2-style rolling hash over UTF code points, with JS
int32 coercion at each `(h * 33) ^ code` step, rendered `>>> 0` in base 36. -/
def stableHash (s : String) : String :=
  let h := s.data.foldl (fun h c => xor32 (h * 33) (Int.ofNat c.toNat)) 5381
  toBase36 (toUint32 h)

/-- `habitIdFor`: hash of `[category, merchantKey ?? '', bucket ?? ''].join('|')`. -/
def habitIdFor (category : Category) (merchantKey : Option String) (bucket : Option ℤ) :
    String :=
  stableHash (category.str ++ "|" ++ merchantKey.getD "" ++ "|" ++
    (bucket.map intToJsString).getD "")

/-! ### `buildHabitPatterns` -/

/-- Append a transaction to its group in the insertion-ordered `Map`. -/
def pushGroup (key : String) (tx : Transaction) :
    List (String × List Transaction) → List (String × List Transaction)
  | [] => [(key, [tx])]
  | (k, l) :: rest =>
    if k = key then (k, l ++ [tx]) :: rest else (k, l) :: pushGroup key tx rest

/-- Day-of-week gaps between consecutive entries of the date-sorted group
(lines 360–366): absolute whole-day gaps, zero gaps dropped. -/
def gapsOf : List Transaction → List ℤ
  | a :: b :: rest =>
    let gap := |diffDays b.date a.date|
    if 0 < gap then gap :: gapsOf (b :: rest) else gapsOf (b :: rest)
  | _ => []

/-- The pattern built from one qualifying group (`[id, list]` with
`list.length ≥ 3`); `nowIso` is the `updatedAt` stamp the source computes
from the ambient clock. -/
def patternOfGroup (scheduleCutoffMs : ℤ) (weeksObserved : ℤ) (nowIso : String)
    (id : String) (list : List Transaction) : HabitPattern :=
  let byDate := sortByJs (fun a b => toMs a.date ≤ toMs b.date) list
  let amounts := byDate.map (·.amount)
  let amountMedian := jsRound (median amounts)
  let amountMad := mad amounts
  let gaps := gapsOf byDate
  let intervalDaysMedian : Option ℤ :=
    if gaps.length ≠ 0 then some (jsRound (median (gaps.map (Int.cast)))) else none
  let intervalType : HabitIntervalType :=
    match intervalDaysMedian with
    | none => .unknown
    | some g =>
      if g ≤ 2 then .daily
      else if |g - 7| ≤ 1 then .weekly
      else if |g - 30| ≤ 5 then .monthly
      else .unknown
  let dowCounts : List ℕ := (List.range 7).map fun k =>
    (byDate.filter fun t =>
      decide (¬ toMs t.date < scheduleCutoffMs ∧ getDay t.date = (k : ℤ))).length
  let dowProb := dowCounts.map fun c => clampQ ((c : ℚ) / (weeksObserved : ℚ)) 0 1
  let timeSamples : List ℤ := byDate.filterMap fun t =>
    t.created_at.bind fun ts =>
      if toMs ts < scheduleCutoffMs then none else some (minutesFromMidnight ts)
  let timeWindow : Option ℤ × Option ℤ :=
    if 5 ≤ timeSamples.length then
      let start := jsRound (quantile (timeSamples.map (Int.cast)) (1/4))
      let stop := jsRound (quantile (timeSamples.map (Int.cast)) (3/4))
      let win :=
        if stop - start < 90 then
          let mid := jsRound (median (timeSamples.map (Int.cast)))
          (mid - 45, mid + 45)
        else (start, stop)
      (some (clampI win.1 0 (24 * 60)), some (clampI win.2 0 (24 * 60)))
    else (none, none)
  let sample := byDate.getD (byDate.length - 1) default
  let merchantKey := merchantKeyFromDescription sample.description
  let bucket : Option ℤ :=
    if jsTruthyStr merchantKey then none else some (amountBucket sample.amount)
  { habitId := id
    category := sample.category
    merchantKey := merchantKey
    amountBucket := bucket
    amountMedian := amountMedian
    amountMad := amountMad.map jsRound
    intervalType := intervalType
    intervalDaysMedian := intervalDaysMedian
    dowProb := dowProb
    timeWindowStartMin := timeWindow.1
    timeWindowEndMin := timeWindow.2
    active := true
    updatedAt := nowIso }

/-- `buildHabitPatterns(transactions, now)`. The source stamps `updatedAt`
from `new Date().toISOString()` — the ambient system clock `sysNow`, not the
`now` parameter (line 348). The two cutoffs are `Date`s built by epoch
arithmetic and only ever compared, so they are carried as epoch ms. -/
def buildHabitPatterns (transactions : List Transaction) (now : LocalDT)
    (sysNow : LocalDT) : List HabitPattern :=
  let scheduleCutoffMs := toMs now - 56 * DAY_MS
  let historyCutoffMs := toMs now - 180 * DAY_MS
  let recent := transactions.filter fun t =>
    decide (t.type = TransactionType.expense ∧
      ¬(t.category = Category.Debt ∨ t.category = Category.Savings) ∧
      ¬ toMs t.date < historyCutoffMs)
  let groups := recent.foldl
    (fun gs tx =>
      let merchantKey := merchantKeyFromDescription tx.description
      let bucket : Option ℤ :=
        if jsTruthyStr merchantKey then none else some (amountBucket tx.amount)
      pushGroup (habitIdFor tx.category merchantKey bucket) tx gs)
    []
  let nowIso := toISOStringJs sysNow
  let weeksObserved := max 1 (jsCeilDiv (diffDaysMs (toMs now) scheduleCutoffMs) 7)
  (groups.filter fun g => 3 ≤ g.2.length).map fun g =>
    patternOfGroup scheduleCutoffMs weeksObserved nowIso g.1 g.2

/-! ### `findDueHabitReminder` -/

/-- The match predicate of lines 441–447. -/
def matchesPattern (t : Transaction) (pattern : HabitPattern) : Bool :=
  if t.type ≠ TransactionType.expense then false
  else if t.category ≠ pattern.category then false
  else if jsTruthyStr pattern.merchantKey then
    merchantKeyFromDescription t.description = pattern.merchantKey
  else
    match pattern.amountBucket with
    | some b => amountBucket t.amount = b
    | none => false

/-- `startOfWeek` (Monday start) of lines 457–463. -/
def startOfWeek (d : LocalDT) : LocalDT :=
  let copy := startOfDay d
  let day := getDay copy
  let diff := if day = 0 then -6 else 1 - day
  setDateJs copy (copy.day + diff)

/-- `startOfMonth`. -/
def startOfMonth (d : LocalDT) : LocalDT := mkDateJs d.year d.month 1

/-- The per-cadence due-policy gates (lines 487–517), on the pattern's
date-sorted matching transactions: `true` when the pattern is due. -/
def passesDuePolicy (pattern : HabitPattern) (matchedTx : List Transaction)
    (now : LocalDT) : Bool :=
  let nowMin := minutesFromMidnight now
  let todayDow := getDay now
  let todayDom := now.day
  let dow := pattern.dowProb.getD todayDow.toNat 0
  let lastMatchDate := matchedTx.getLast?.map (·.date)
  let daysSinceLast := lastMatchDate.map fun d => diffDays now d
  if pattern.intervalType = HabitIntervalType.weekly then
    let weekStart := startOfWeek now
    let hasThisWeek := matchedTx.any fun t => ¬ toMs t.date < toMs weekStart
    if hasThisWeek then false
    else if dow < 2/5 then false
    else if nowMin < 12 * 60 then false
    else
      match daysSinceLast with
      | some ds => ¬ ds < (pattern.intervalDaysMedian.getD 7) - 1
      | none => true
  else if pattern.intervalType = HabitIntervalType.monthly then
    let monthStart := startOfMonth now
    let hasThisMonth := matchedTx.any fun t => ¬ toMs t.date < toMs monthStart
    if hasThisMonth then false
    else if nowMin < 12 * 60 then false
    else
      let doms := (matchedTx.drop (matchedTx.length - 6)).map (·.date.day)
      let expectedDom := if 3 ≤ doms.length then jsRound (median (doms.map (Int.cast))) else 1
      let windowStart := clampI (expectedDom - 7) 1 31
      let windowEnd := clampI (expectedDom + 7) 1 31
      ¬(todayDom < windowStart ∨ windowEnd < todayDom)
  else
    if dow < 3/5 then false
    else
      match pattern.timeWindowEndMin with
      | some endMin =>
        ¬ nowMin < pattern.timeWindowStartMin.getD 0 ∧ ¬ endMin + 120 < nowMin
      | none => ¬ nowMin < 18 * 60

/-- The candidate-and-score payload built for a due pattern (lines 519–538). -/
def reminderPayloadFor (pattern : HabitPattern) (todayDow : ℤ) :
    HabitReminderCandidate × ℚ :=
  let amount := pattern.amountMedian
  let merchant := if jsTruthyStr pattern.merchantKey then
      " (" ++ pattern.merchantKey.getD "" ++ ")" else ""
  let intervalHint :=
    if pattern.intervalType = HabitIntervalType.weekly then "this week"
    else if pattern.intervalType = HabitIntervalType.monthly then "this month"
    else "today"
  let score := (pattern.dowProb.getD todayDow.toNat 0) +
    (if pattern.intervalType = HabitIntervalType.daily then 1/5
     else if pattern.intervalType = HabitIntervalType.weekly then 1/10 else 0)
  ({ habitId := pattern.habitId
     title := "Quick reminder"
     message := "You usually log " ++ pattern.category.str ++ merchant ++
       " around now. Did you miss it " ++ intervalHint ++ "?"
     category := pattern.category
     description := if jsTruthyStr pattern.merchantKey then
         pattern.merchantKey.getD "" else pattern.category.str
     amount := amount }, score)

/-- One entry of the candidate list (the closure of lines 475–539 for one
active pattern): `none` when any exclusion gate or due-policy gate fires. -/
def candidateFor (transactions : List Transaction)
    (stateByHabitId : List (String × HabitReminderState)) (now : LocalDT)
    (pattern : HabitPattern) : Option (HabitReminderCandidate × ℚ) :=
  let today := toLocalISODate now
  let state := alistFind pattern.habitId stateByHabitId
  if jsTruthyStr (state.bind (·.snoozedUntil)) ∧
      strLeJs today ((state.bind (·.snoozedUntil)).getD "") then none
  else if (state.bind (·.lastRemindedDate)) = some today then none
  else if transactions.any fun t =>
      toLocalISODate t.date = today ∧ matchesPattern t pattern then none
  else
    let matchedTx := sortByJs (fun a b => toMs a.date ≤ toMs b.date)
      (transactions.filter (matchesPattern · pattern))
    if passesDuePolicy pattern matchedTx now then
      some (reminderPayloadFor pattern (getDay now))
    else none

/-- `findDueHabitReminder(patterns, transactions, stateByHabitId, now)`. -/
def findDueHabitReminder (patterns : List HabitPattern)
    (transactions : List Transaction)
    (stateByHabitId : List (String × HabitReminderState)) (now : LocalDT) :
    Option HabitReminderCandidate :=
  let candidates := sortByJs (fun a b : HabitReminderCandidate × ℚ => b.2 ≤ a.2)
    ((patterns.filter (·.active)).filterMap (candidateFor transactions stateByHabitId now))
  candidates.head?.map (·.1)

/-!
## Verification

General lemmas about the stable sort and positional list updates, then the
simulator invariants, then one theorem per specification claim.
-/

/-! ### Stable sort lemmas -/

theorem mem_insertSorted {le : α → α → Bool} {x a : α} {l : List α} :
    a ∈ insertSorted le x l ↔ a = x ∨ a ∈ l := by
  induction l with
  | nil => simp [insertSorted]
  | cons y ys ih =>
    by_cases h : le x y = true
    · simp [insertSorted, h]
    · simp only [insertSorted, if_neg h, List.mem_cons, ih]
      tauto

theorem insertSorted_perm {le : α → α → Bool} (x : α) (l : List α) :
    (insertSorted le x l).Perm (x :: l) := by
  induction l with
  | nil => simp [insertSorted]
  | cons y ys ih =>
    by_cases h : le x y = true
    · simp [insertSorted, h]
    · simpa [insertSorted, h] using
        ((ih.cons y).trans (List.Perm.swap x y ys))

theorem sortByJs_perm (le : α → α → Bool) (l : List α) :
    (sortByJs le l).Perm l := by
  induction l with
  | nil => simp [sortByJs]
  | cons x xs ih =>
    exact (insertSorted_perm x (sortByJs le xs)).trans (ih.cons x)

theorem mem_sortByJs {le : α → α → Bool} {a : α} {l : List α} :
    a ∈ sortByJs le l ↔ a ∈ l := (sortByJs_perm le l).mem_iff

theorem sortByJs_nodup {le : α → α → Bool} {l : List α} (h : l.Nodup) :
    (sortByJs le l).Nodup := ((sortByJs_perm le l).nodup_iff).mpr h

theorem insertSorted_pairwise {le : α → α → Bool}
    (htot : ∀ a b, le a b = true ∨ le b a = true)
    (htr : ∀ a b c, le a b = true → le b c = true → le a c = true)
    {x : α} {l : List α}
    (hl : l.Pairwise fun a b => le a b = true) :
    (insertSorted le x l).Pairwise fun a b => le a b = true := by
  induction l with
  | nil => simp [insertSorted]
  | cons y ys ih =>
    rcases List.pairwise_cons.mp hl with ⟨hy, hys⟩
    by_cases h : le x y = true
    · rw [insertSorted, if_pos h]
      refine List.pairwise_cons.mpr ⟨?_, hl⟩
      intro b hb
      rcases List.mem_cons.mp hb with hby | hb
      · rw [hby]; exact h
      · exact htr x y b h (hy b hb)
    · rw [insertSorted, if_neg h]
      refine List.pairwise_cons.mpr ⟨?_, ih hys⟩
      intro b hb
      rcases mem_insertSorted.mp hb with hbx | hb
      · rcases htot x y with hxy | hyx
        · exact absurd hxy h
        · rw [hbx]; exact hyx
      · exact hy b hb

theorem insertSorted_all_le {le : α → α → Bool} {x : α} {l : List α}
    (h : ∀ z ∈ l, le x z = true) : insertSorted le x l = x :: l := by
  cases l with
  | nil => rfl
  | cons y ys => simp [insertSorted, h y (List.mem_cons_self y ys)]

theorem sortByJs_pairwise {le : α → α → Bool}
    (htot : ∀ a b, le a b = true ∨ le b a = true)
    (htr : ∀ a b c, le a b = true → le b c = true → le a c = true)
    (l : List α) :
    (sortByJs le l).Pairwise fun a b => le a b = true := by
  induction l with
  | nil => simp [sortByJs]
  | cons x xs ih => exact insertSorted_pairwise htot htr ih

/-- Filtering commutes past an insertion into a sorted list. -/
theorem filter_insertSorted {le : α → α → Bool} {p : α → Bool}
    (htr : ∀ a b c, le a b = true → le b c = true → le a c = true)
    {x : α} {l : List α}
    (hl : l.Pairwise fun a b => le a b = true) :
    (insertSorted le x l).filter p =
      if p x then insertSorted le x (l.filter p) else l.filter p := by
  induction l with
  | nil =>
    by_cases hx : p x = true <;> simp [insertSorted, hx]
  | cons y ys ih =>
    rcases List.pairwise_cons.mp hl with ⟨hy, hys⟩
    by_cases h : le x y = true
    · rw [insertSorted, if_pos h]
      by_cases hx : p x = true
      · by_cases hpy : p y = true
        · rw [if_pos hx]
          have : (y :: ys).filter p = y :: ys.filter p := by simp [hpy]
          rw [this, insertSorted, if_pos h]
          simp [hx, hpy]
        · rw [if_pos hx]
          have h1 : (y :: ys).filter p = ys.filter p := by simp [hpy]
          rw [h1, insertSorted_all_le]
          · simp [hx, hpy, h1]
          · intro z hz
            exact htr x y z h (hy z (List.mem_filter.mp hz).1)
      · simp only [Bool.not_eq_true] at hx
        simp [hx]
    · rw [insertSorted, if_neg h]
      by_cases hpy : p y = true
      · have h2 := ih hys
        by_cases hx : p x = true
        · rw [if_pos hx] at h2 ⊢
          have h3 : (y :: ys).filter p = y :: ys.filter p := by simp [hpy]
          rw [h3, insertSorted, if_neg h]
          simp [hpy, h2]
        · rw [if_neg hx] at h2 ⊢
          simp [hpy, h2]
      · have h2 := ih hys
        by_cases hx : p x = true
        · rw [if_pos hx] at h2 ⊢
          simp [hpy, h2]
        · rw [if_neg hx] at h2 ⊢
          simp [hpy, h2]

/-! ### C4: budget monotonicity — domination relations -/

/-- Two working debts agreeing on everything except (possibly) the balance. -/
def shapeEq (a b : SimDebt) : Prop :=
  a.id = b.id ∧ a.rate = b.rate ∧ a.minPay = b.minPay ∧ a.dueDate = b.dueDate

/-- `b` (the larger-budget run's debt) is dominated by `a`: same shape, and
`b` is either already settled (≤ 0.5) or carries no more balance than `a`. -/
def dom (a b : SimDebt) : Prop :=
  shapeEq a b ∧ (b.balance ≤ 1/2 ∨ b.balance ≤ a.balance)

/-- `b` is `a` after paying some principal: same shape, balance no larger. -/
def decr (a b : SimDebt) : Prop := shapeEq a b ∧ b.balance ≤ a.balance

abbrev DomL : List SimDebt → List SimDebt → Prop := List.Forall₂ dom

abbrev DecrL : List SimDebt → List SimDebt → Prop := List.Forall₂ decr

theorem shapeEq_refl (a : SimDebt) : shapeEq a a := ⟨rfl, rfl, rfl, rfl⟩

theorem shapeEq_trans {a b c : SimDebt} (h1 : shapeEq a b) (h2 : shapeEq b c) :
    shapeEq a c :=
  ⟨h1.1.trans h2.1, h1.2.1.trans h2.2.1, h1.2.2.1.trans h2.2.2.1,
   h1.2.2.2.trans h2.2.2.2⟩

theorem dom_refl (a : SimDebt) : dom a a := ⟨shapeEq_refl a, Or.inr le_rfl⟩

theorem decr_refl (a : SimDebt) : decr a a := ⟨shapeEq_refl a, le_rfl⟩

theorem decr_trans {a b c : SimDebt} (h1 : decr a b) (h2 : decr b c) : decr a c :=
  ⟨shapeEq_trans h1.1 h2.1, h2.2.trans h1.2⟩

theorem dom_decr {a b b' : SimDebt} (h1 : dom a b) (h2 : decr b b') : dom a b' := by
  refine ⟨shapeEq_trans h1.1 h2.1, ?_⟩
  rcases h1.2 with hd | hle
  · exact Or.inl (h2.2.trans hd)
  · exact Or.inr (h2.2.trans hle)

theorem dom_dead_right {a b : SimDebt} (h : dom a b) (ha : a.balance ≤ 1/2) :
    b.balance ≤ 1/2 := by
  rcases h.2 with hd | hle
  · exact hd
  · exact hle.trans ha

theorem dom_alive_left {a b : SimDebt} (h : dom a b) (hb : 1/2 < b.balance) :
    b.balance ≤ a.balance ∧ 1/2 < a.balance := by
  rcases h.2 with hd | hle
  · exact absurd hb (not_lt.mpr hd)
  · exact ⟨hle, lt_of_lt_of_le hb hle⟩

theorem domL_refl (l : List SimDebt) : DomL l l :=
  List.forall₂_same.mpr fun d _ => dom_refl d

theorem decrL_refl (l : List SimDebt) : DecrL l l :=
  List.forall₂_same.mpr fun d _ => decr_refl d

theorem domL_comp_decrL {l m m' : List SimDebt} (h1 : DomL l m) (h2 : DecrL m m') :
    DomL l m' := by
  induction h1 generalizing m' with
  | nil => cases h2; exact List.Forall₂.nil
  | cons hd _ ih =>
    cases h2 with
    | cons hd2 ht2 => exact List.Forall₂.cons (dom_decr hd hd2) (ih ht2)

theorem decrL_trans {l m m' : List SimDebt} (h1 : DecrL l m) (h2 : DecrL m m') :
    DecrL l m' := by
  induction h1 generalizing m' with
  | nil => cases h2; exact List.Forall₂.nil
  | cons hd _ ih =>
    cases h2 with
    | cons hd2 ht2 => exact List.Forall₂.cons (decr_trans hd hd2) (ih ht2)

theorem forall₂_getD {R : SimDebt → SimDebt → Prop} {l m : List SimDebt}
    (h : List.Forall₂ R l m) (hR : R default default) (i : ℕ) :
    R (l.getD i default) (m.getD i default) := by
  induction h generalizing i with
  | nil => exact hR
  | cons hd _ ih =>
    cases i with
    | zero => exact hd
    | succ j => exact ih j

theorem forall₂_set_both {R : SimDebt → SimDebt → Prop} {l m : List SimDebt}
    (h : List.Forall₂ R l m) {x y : SimDebt} (hxy : R x y) (i : ℕ) :
    List.Forall₂ R (l.set i x) (m.set i y) := by
  induction h generalizing i with
  | nil => exact List.Forall₂.nil
  | cons hd ht ih =>
    cases i with
    | zero => exact List.Forall₂.cons hxy (by assumption)
    | succ j => exact List.Forall₂.cons hd (ih j)

theorem forall₂_set_left {R : SimDebt → SimDebt → Prop} {l m : List SimDebt}
    (h : List.Forall₂ R l m) {x : SimDebt} (i : ℕ)
    (hx : R x (m.getD i default)) :
    List.Forall₂ R (l.set i x) m := by
  induction h generalizing i with
  | nil => exact List.Forall₂.nil
  | cons hd ht ih =>
    cases i with
    | zero => exact List.Forall₂.cons hx (by assumption)
    | succ j => exact List.Forall₂.cons hd (ih j hx)

theorem forall₂_set_right {R : SimDebt → SimDebt → Prop} {l m : List SimDebt}
    (h : List.Forall₂ R l m) {y : SimDebt} (i : ℕ)
    (hy : R (l.getD i default) y) :
    List.Forall₂ R l (m.set i y) := by
  induction h generalizing i with
  | nil => exact List.Forall₂.nil
  | cons hd ht ih =>
    cases i with
    | zero => exact List.Forall₂.cons hy (by assumption)
    | succ j => exact List.Forall₂.cons hd (ih j hy)

theorem list_getD_set_ne {l : List α} {i j : ℕ} (h : i ≠ j) (x d : α) :
    (l.set i x).getD j d = l.getD j d := by
  induction l generalizing i j with
  | nil => rfl
  | cons a t ih =>
    cases i with
    | zero =>
      cases j with
      | zero => exact absurd rfl h
      | succ k => rfl
    | succ i' =>
      cases j with
      | zero => rfl
      | succ k => exact ih fun hc => h (by omega)

/-! ### C4: arithmetic of a single payment step -/

theorem minPay_step_balance_mono {mp b1 b2 r1 r2 : ℚ} (hb : b2 ≤ b1) (hr : r1 ≤ r2) :
    b2 - min (min mp b2) r2 ≤ b1 - min (min mp b1) r1 := by
  simp only [min_def]
  split_ifs <;> linarith

theorem minPay_step_rem_mono {mp b1 b2 r1 r2 : ℚ} (hb : b2 ≤ b1) (hr : r1 ≤ r2) :
    r1 - min (min mp b1) r1 ≤ r2 - min (min mp b2) r2 := by
  simp only [min_def]
  split_ifs <;> linarith

theorem surplus_step_balance_mono {b1 b2 r1 r2 : ℚ} (hb : b2 ≤ b1) (hr : r1 ≤ r2) :
    b2 - min b2 r2 ≤ b1 - min b1 r1 := by
  simp only [min_def]
  split_ifs <;> linarith

theorem surplus_step_rem_mono {b1 b2 r1 r2 : ℚ} (hb : b2 ≤ b1) (hr : r1 ≤ r2) :
    r1 - min b1 r1 ≤ r2 - min b2 r2 := by
  simp only [min_def]
  split_ifs <;> linarith

theorem jsRound_nonneg {q : ℚ} (h : 0 ≤ q) : 0 ≤ jsRound q := by
  unfold jsRound
  have : (0 : ℤ) = ⌊(1 : ℚ)/2⌋ := by norm_num
  rw [this]
  exact Int.floor_le_floor (by linarith)

theorem jsRound_mono {q r : ℚ} (h : q ≤ r) : jsRound q ≤ jsRound r :=
  Int.floor_le_floor (by linarith)

/-! ### C4: the fixed-order comparators are total, transitive and
balance-independent -/

theorem charCmp_eq_iff {c d : Char} : charCmp c d = Ordering.eq ↔ c = d := by
  unfold charCmp
  split_ifs with h1 h2
  · simp [ne_of_lt h1]
  · simp [(ne_of_lt h2).symm]
  · simp [le_antisymm (not_lt.mp h2) (not_lt.mp h1)]

theorem charCmp_lt_iff {c d : Char} : charCmp c d = Ordering.lt ↔ c < d := by
  unfold charCmp
  split_ifs with h1 h2 <;> simp [h1]

theorem charCmp_gt_iff {c d : Char} : charCmp c d = Ordering.gt ↔ d < c := by
  unfold charCmp
  split_ifs with h1 h2
  · simp [h1, not_lt.mpr (le_of_lt h1)]
  · simp [h2]
  · simp [h2]

theorem listCharCmp_not_gt_total (a b : List Char) :
    listCharCmp a b ≠ Ordering.gt ∨ listCharCmp b a ≠ Ordering.gt := by
  induction a generalizing b with
  | nil => cases b <;> simp [listCharCmp]
  | cons c cs ih =>
    cases b with
    | nil => simp [listCharCmp]
    | cons d ds =>
      rcases lt_trichotomy c d with h | h | h
      · left
        simp [listCharCmp, charCmp_lt_iff.mpr h]
      · subst h
        have := ih ds
        simpa [listCharCmp, charCmp_eq_iff.mpr rfl] using this
      · right
        simp [listCharCmp, charCmp_lt_iff.mpr h]

theorem listCharCmp_not_gt_trans {a b c : List Char}
    (h1 : listCharCmp a b ≠ Ordering.gt) (h2 : listCharCmp b c ≠ Ordering.gt) :
    listCharCmp a c ≠ Ordering.gt := by
  induction a generalizing b c with
  | nil => cases c <;> simp [listCharCmp]
  | cons x xs ih =>
    cases b with
    | nil => simp [listCharCmp] at h1
    | cons y ys =>
      cases c with
      | nil => simp [listCharCmp] at h2
      | cons z zs =>
        rcases lt_trichotomy x y with hxy | hxy | hxy
        · rcases lt_trichotomy y z with hyz | hyz | hyz
          · simp [listCharCmp, charCmp_lt_iff.mpr (lt_trans hxy hyz)]
          · subst hyz
            simp [listCharCmp, charCmp_lt_iff.mpr hxy]
          · rw [listCharCmp, charCmp_gt_iff.mpr hyz] at h2
            simp at h2
        · subst hxy
          rcases lt_trichotomy x z with hyz | hyz | hyz
          · simp [listCharCmp, charCmp_lt_iff.mpr hyz]
          · subst hyz
            rw [listCharCmp, charCmp_eq_iff.mpr rfl] at h1 h2 ⊢
            exact ih h1 h2
          · rw [listCharCmp, charCmp_gt_iff.mpr hyz] at h2
            simp at h2
        · rw [listCharCmp, charCmp_gt_iff.mpr hxy] at h1
          simp at h1

theorem strLeJs_total (a b : String) : strLeJs a b = true ∨ strLeJs b a = true := by
  rcases listCharCmp_not_gt_total a.data b.data with h | h
  · left
    simpa [strLeJs] using h
  · right
    simpa [strLeJs] using h

theorem strLeJs_trans {a b c : String} (h1 : strLeJs a b = true)
    (h2 : strLeJs b c = true) : strLeJs a c = true := by
  simp only [strLeJs, ne_eq, decide_eq_true_eq] at h1 h2 ⊢
  exact listCharCmp_not_gt_trans h1 h2

/-- The comparator of a strategy never reads balances. -/
def cmpShapeInvariant (strategy : DebtPayoffStrategy) : Prop :=
  ∀ a b a' b' : SimDebt, shapeEq a a' → shapeEq b b' →
    orderLe strategy a b = orderLe strategy a' b'

def cmpTotal (strategy : DebtPayoffStrategy) : Prop :=
  ∀ a b : SimDebt, orderLe strategy a b = true ∨ orderLe strategy b a = true

def cmpTrans (strategy : DebtPayoffStrategy) : Prop :=
  ∀ a b c : SimDebt, orderLe strategy a b = true → orderLe strategy b c = true →
    orderLe strategy a c = true

theorem avalanche_shapeInvariant : cmpShapeInvariant .avalanche := by
  intro a b a' b' h1 h2
  simp only [orderLe, h1.2.1, h2.2.1]

theorem avalanche_total : cmpTotal .avalanche := by
  intro a b
  simp only [orderLe, decide_eq_true_eq]
  rcases le_total a.rate b.rate with h | h
  · right; linarith
  · left; linarith

theorem avalanche_trans : cmpTrans .avalanche := by
  intro a b c h1 h2
  simp only [orderLe, decide_eq_true_eq] at h1 h2 ⊢
  linarith

theorem dueDate_shapeInvariant : cmpShapeInvariant .dueDate := by
  intro a b a' b' h1 h2
  simp only [orderLe, h1.2.2.2, h2.2.2.2, h1.1, h2.1]

theorem dueDate_total : cmpTotal .dueDate := by
  intro a b
  simp only [orderLe]
  rcases ha : a.dueDate with _ | x <;> rcases hb : b.dueDate with _ | y <;>
    dsimp only
  · exact strLeJs_total a.id b.id
  · right; rfl
  · left; rfl
  · by_cases hxy : toMs x = toMs y
    · rw [if_neg (by simp [hxy]), if_neg (by simp [hxy])]
      exact strLeJs_total a.id b.id
    · rcases le_total (toMs x) (toMs y) with h | h
      · left
        rw [if_pos hxy]
        simpa using h
      · right
        rw [if_pos fun hc => hxy hc.symm]
        simpa using h

theorem dueDate_trans : cmpTrans .dueDate := by
  intro a b c h1 h2
  simp only [orderLe] at h1 h2 ⊢
  rcases ha : a.dueDate with _ | x <;> rcases hb : b.dueDate with _ | y <;>
    rcases hc : c.dueDate with _ | z <;>
    rw [ha, hb] at h1 <;> rw [hb, hc] at h2 <;>
    dsimp only at h1 h2 ⊢
  · exact strLeJs_trans h1 h2
  · exact Bool.noConfusion h2
  · exact Bool.noConfusion h1
  · exact Bool.noConfusion h1
  · exact Bool.noConfusion h2
  · by_cases hxy : toMs x = toMs y <;> by_cases hyz : toMs y = toMs z
    · rw [if_neg (by simp [hxy])] at h1
      rw [if_neg (by simp [hyz])] at h2
      rw [if_neg (by simp [hxy.trans hyz])]
      exact strLeJs_trans h1 h2
    · rw [if_neg (by simp [hxy])] at h1
      rw [if_pos hyz] at h2
      simp only [decide_eq_true_eq] at h2
      rw [if_pos (show toMs x ≠ toMs z by rw [hxy]; exact hyz)]
      simp only [decide_eq_true_eq]
      rw [hxy]
      exact h2
    · rw [if_pos hxy] at h1
      simp only [decide_eq_true_eq] at h1
      rw [if_pos (show toMs x ≠ toMs z by rw [← hyz]; exact hxy)]
      simp only [decide_eq_true_eq]
      rw [← hyz]
      exact h1
    · rw [if_pos hxy] at h1
      rw [if_pos hyz] at h2
      simp only [decide_eq_true_eq] at h1 h2
      have hxz : toMs x < toMs z :=
        lt_of_lt_of_le (lt_of_le_of_ne h1 hxy) h2
      rw [if_pos (ne_of_lt hxz)]
      simp [le_of_lt hxz]

/-! ### Habit id determinism and the pattern invariant -/

instance : Inhabited HabitPattern :=
  ⟨⟨"", Category.Other, none, none, 0, none, .unknown, none, [], none, none, false, ""⟩⟩

instance : Inhabited HabitReminderCandidate :=
  ⟨⟨"", "", "", Category.Other, "", 0⟩⟩

theorem merchantKeyFromDescription_length {s k : String}
    (h : merchantKeyFromDescription s = some k) : 3 ≤ k.length := by
  simp only [merchantKeyFromDescription] at h
  split_ifs at h
  all_goals simp_all

theorem merchantKeyFromDescription_ne_empty {s k : String}
    (h : merchantKeyFromDescription s = some k) : k ≠ "" := by
  intro hk
  have := merchantKeyFromDescription_length h
  rw [hk] at this
  simp [String.length] at this

/-- **C7** — The habit id derivation is deterministic and factors through the
`(category, merchantKey ?? '', amountBucket ?? '')` tuple: equal tuples (null
fields read as empty strings) always map to equal ids, across any two
invocations. -/
theorem habitIdFor_deterministic (c1 c2 : Category) (mk1 mk2 : Option String)
    (b1 b2 : Option ℤ) (hc : c1 = c2) (hm : mk1.getD "" = mk2.getD "")
    (hb : (b1.map intToJsString).getD "" = (b2.map intToJsString).getD "") :
    habitIdFor c1 mk1 b1 = habitIdFor c2 mk2 b2 := by
  subst hc
  unfold habitIdFor
  rw [hm, hb]

theorem habitIdFor_deterministic_witness :
    ((none : Option String).getD "" = (some "").getD "") ∧
      ((some (5 : ℤ)).map intToJsString).getD "" = ((some (5 : ℤ)).map intToJsString).getD "" ∧
      habitIdFor Category.Food none (some 5) = habitIdFor Category.Food (some "") (some 5) :=
  ⟨rfl, rfl, habitIdFor_deterministic _ _ _ _ _ _ rfl rfl rfl⟩

/-- The merchant-key/amount-bucket pair of an emitted pattern always has the
shape produced at lines 406–408. -/
theorem patternOfGroup_key_shape (sc w : ℤ) (iso id : String) (l : List Transaction) :
    ∃ s : String, ∃ a : ℚ,
      (patternOfGroup sc w iso id l).merchantKey = merchantKeyFromDescription s ∧
      (patternOfGroup sc w iso id l).amountBucket =
        (if jsTruthyStr (merchantKeyFromDescription s) then none
         else some (amountBucket a)) :=
  ⟨_, _, rfl, rfl⟩

/-- **C6** — Every pattern returned by `buildHabitPatterns` has exactly one of
`merchantKey` and `amountBucket` non-null, for every transaction list and
every `now`/system clock. -/
theorem buildHabitPatterns_key_invariant (transactions : List Transaction)
    (now sysNow : LocalDT) (p : HabitPattern)
    (hp : p ∈ buildHabitPatterns transactions now sysNow) :
    (p.merchantKey ≠ none ∧ p.amountBucket = none) ∨
      (p.merchantKey = none ∧ p.amountBucket ≠ none) := by
  simp only [buildHabitPatterns, List.mem_map] at hp
  obtain ⟨g, hg, rfl⟩ := hp
  obtain ⟨s, a, hmk, hab⟩ := patternOfGroup_key_shape _ _ _ g.1 g.2
  rcases h : merchantKeyFromDescription s with _ | k
  · right
    rw [h] at hmk hab
    refine ⟨hmk, ?_⟩
    rw [hab]
    simp [jsTruthyStr]
  · left
    rw [h] at hmk hab
    refine ⟨by rw [hmk]; simp, ?_⟩
    rw [hab]
    simp [jsTruthyStr, merchantKeyFromDescription_ne_empty h]

def c6now : LocalDT := ⟨2024, 0, 15, 12 * 3600000⟩

def c6sys : LocalDT := ⟨2025, 5, 5, 0⟩

def c6txs : List Transaction :=
  [⟨"1", 500, Category.Food, ⟨2024, 0, 10, 36000000⟩, "Cafe Latte", .expense, none⟩,
   ⟨"2", 520, Category.Food, ⟨2024, 0, 11, 36000000⟩, "Cafe Latte", .expense, none⟩,
   ⟨"3", 480, Category.Food, ⟨2024, 0, 12, 36000000⟩, "Cafe Latte", .expense, none⟩]

def c6pat : HabitPattern := (buildHabitPatterns c6txs c6now c6sys).getD 0 default

set_option maxRecDepth 100000 in
theorem buildHabitPatterns_key_invariant_witness :
    c6pat ∈ buildHabitPatterns c6txs c6now c6sys ∧
      ((c6pat.merchantKey ≠ none ∧ c6pat.amountBucket = none) ∨
        (c6pat.merchantKey = none ∧ c6pat.amountBucket ≠ none)) :=
  ⟨by decide, buildHabitPatterns_key_invariant c6txs c6now c6sys c6pat (by decide)⟩

/-! ### C9: `updatedAt` is stamped from the ambient clock, not the `now` argument -/

def c9now : LocalDT := ⟨2024, 0, 15, 43200000⟩

def c9sys : LocalDT := ⟨2025, 5, 5, 0⟩

def c9txs : List Transaction :=
  [⟨"1", 800, Category.Transport, ⟨2024, 0, 8, 30000000⟩, "Metro Pass", .expense, none⟩,
   ⟨"2", 800, Category.Transport, ⟨2024, 0, 10, 30000000⟩, "Metro Pass", .expense, none⟩,
   ⟨"3", 800, Category.Transport, ⟨2024, 0, 12, 30000000⟩, "Metro Pass", .expense, none⟩]

set_option maxRecDepth 100000 in
/-- **C9** — At the failing input (`now` = 2024-01-15, system clock =
2025-06-05) every emitted pattern carries `updatedAt` rendered from the
ambient system clock, which differs from the injected `now` argument: the
source reads `new Date().toISOString()` at line 348. -/
theorem buildHabitPatterns_updatedAt_from_ambient_clock :
    (buildHabitPatterns c9txs c9now c9sys).map (·.updatedAt) =
      [toISOStringJs c9sys] ∧
      toISOStringJs c9sys ≠ toISOStringJs c9now := by
  exact ⟨by decide, by decide⟩

/-! ### C2: the payoff date arithmetic -/

def minFallbackOf (options : DebtPayoffSimulationOptions) : Debt → ℚ :=
  options.minPaymentFallback.getD fun _ => 0

def startDateOf (sysNow : LocalDT) (options : DebtPayoffSimulationOptions) : LocalDT :=
  options.startDate.getD sysNow

def c2start : LocalDT := ⟨2024, 0, 15, 0⟩

def c2render : LocalDT → String := fun _ => ""

def c2debts : List Debt := [⟨"a", 100, none, .payable, false, some 0, some 100⟩]

def c2opts : DebtPayoffSimulationOptions :=
  { strategy := .avalanche, extraPrincipalBudget := some 0, startDate := some c2start }

/-- **C2 counterexample** — a single debt paid in one month: `months = 1` but
the returned payoff date is `startDate` itself (`addMonths (m-1)`), not
`startDate` plus one month as the claim states. -/
theorem simulateDebtPayoff_payoffDate_not_plus_m :
    (simulateDebtPayoff c2start c2render c2debts c2opts).months = some 1 ∧
      (simulateDebtPayoff c2start c2render c2debts c2opts).payoffDate = some c2start ∧
      addMonths c2start 1 ≠ c2start :=
  ⟨by decide, by decide, by decide⟩

theorem daysInMonth_ge_28 (y m : ℤ) : 28 ≤ daysInMonth y m := by
  unfold daysInMonth
  split_ifs <;> norm_num

/-- `new Date(y, m + k, d)` keeps the day-of-month whenever it cannot
overflow the target month. -/
theorem addMonths_day (base : LocalDT) (k : ℤ) (h1 : 1 ≤ base.day)
    (h2 : base.day ≤ 28) : (addMonths base k).day = base.day := by
  unfold addMonths mkDateJs
  have h3 := daysInMonth_ge_28 (base.year + (base.month + k).fdiv 12)
    ((base.month + k).emod 12)
  rw [if_neg (by omega), if_pos (by omega)]

/-- **C2 (amended)** — on success with `months = m ≥ 1` the payoff date is
`startDate` plus `m - 1` calendar months (the JS month addition), and it
falls on the same day-of-month as `startDate` whenever that day exists in
the target month (in particular for days 1–28). -/
theorem simulateDebtPayoff_payoffDate_eq (sysNow : LocalDT)
    (render : LocalDT → String) (debts : List Debt)
    (options : DebtPayoffSimulationOptions) (m : ℕ)
    (_hsched : scheduledOf debts (minFallbackOf options) ≠ [])
    (hm : (simulateDebtPayoff sysNow render debts options).months = some m)
    (h1 : 1 ≤ m) :
    (simulateDebtPayoff sysNow render debts options).payoffDate =
      some (addMonths (startDateOf sysNow options) ((m : ℤ) - 1)) ∧
    (1 ≤ (startDateOf sysNow options).day → (startDateOf sysNow options).day ≤ 28 →
      (addMonths (startDateOf sysNow options) ((m : ℤ) - 1)).day =
        (startDateOf sysNow options).day) := by
  refine ⟨?_, fun ha hb => addMonths_day _ _ ha hb⟩
  simp only [simulateDebtPayoff, simulateFull, minFallbackOf, startDateOf] at hm ⊢
  set target := addMonths (options.startDate.getD sysNow) ((m : ℤ) - 1) with htarget
  split_ifs at hm ⊢ with hEmpty hBudget hOpen
  any_goals simp at hm
  any_goals omega
  dsimp only at hm ⊢
  rw [htarget]
  simp only [payoffMonthToDate, Option.some.injEq]
  congr 1
  omega

theorem simulateDebtPayoff_payoffDate_eq_witness :
    (simulateDebtPayoff c2start c2render c2debts c2opts).payoffDate =
      some (addMonths (startDateOf c2start c2opts) ((1 : ℤ) - 1)) ∧
    (1 ≤ (startDateOf c2start c2opts).day → (startDateOf c2start c2opts).day ≤ 28 →
      (addMonths (startDateOf c2start c2opts) ((1 : ℤ) - 1)).day =
        (startDateOf c2start c2opts).day) :=
  simulateDebtPayoff_payoffDate_eq c2start c2render c2debts c2opts 1
    (by decide) (by decide) (by decide)

/-! ### C3: no exceptions; invalid invocations are absorbed -/

def c3start : LocalDT := ⟨2023, 6, 1, 0⟩

def c3render : LocalDT → String := fun _ => ""

def c3debts : List Debt := [⟨"a", 100, none, .payable, false, some 0, some 100⟩]

def c3optsNeg : DebtPayoffSimulationOptions :=
  { strategy := .avalanche, extraPrincipalBudget := some (-5), startDate := some c3start }

def c3optsZero : DebtPayoffSimulationOptions :=
  { strategy := .avalanche, extraPrincipalBudget := some 0, startDate := some c3start }

/-- **C3 counterexample** — a negative `extraPrincipalBudget` does not raise:
the call returns the same structured (successful) result as a zero budget,
because line 60 clamps with `Math.max(0, …)`. -/
theorem simulateDebtPayoff_negative_extra_returns :
    simulateDebtPayoff c3start c3render c3debts c3optsNeg =
      simulateDebtPayoff c3start c3render c3debts c3optsZero ∧
      (simulateDebtPayoff c3start c3render c3debts c3optsNeg).warning = none ∧
      (simulateDebtPayoff c3start c3render c3debts c3optsNeg).months = some 1 :=
  ⟨by decide, by decide, by decide⟩

/-- **C3 (amended)** — `simulateDebtPayoff` never throws: every invocation
returns a structured result; a negative `extraPrincipalBudget` behaves as 0
(clamped), and a non-positive `maxMonths` (with an open scheduled debt and a
positive budget) yields the structured divergence warning. -/
theorem simulateDebtPayoff_total (sysNow : LocalDT) (render : LocalDT → String)
    (debts : List Debt) (options : DebtPayoffSimulationOptions) :
    simulateDebtPayoff sysNow render debts options =
      simulateDebtPayoff sysNow render debts
        { options with
          extraPrincipalBudget := some (max 0 (options.extraPrincipalBudget.getD 0)) } ∧
    (options.maxMonths.getD 600 ≤ 0 →
      (∃ d ∈ scheduledOf debts (minFallbackOf options), 1/2 < d.balance) →
      0 < ((scheduledOf debts (minFallbackOf options)).map (·.minPay)).sum +
          max 0 (options.extraPrincipalBudget.getD 0) →
      (simulateDebtPayoff sysNow render debts options).warning =
          some "Payment plan too long; increase payments" ∧
        (simulateDebtPayoff sysNow render debts options).months = none) := by
  constructor
  · simp only [simulateDebtPayoff, simulateFull, Option.getD_some]
    rw [← max_assoc, max_self]
  · intro hmax hopen hbudget
    have hfuel : (max 0 (options.maxMonths.getD 600)).toNat = 0 := by omega
    have hne : ¬(scheduledOf debts (minFallbackOf options)).isEmpty = true := by
      obtain ⟨d, hd, _⟩ := hopen
      cases h : scheduledOf debts (minFallbackOf options) with
      | nil => rw [h] at hd; exact absurd hd (List.not_mem_nil d)
      | cons a l => simp [List.isEmpty]
    have hopen' : anyOpen (scheduledOf debts (minFallbackOf options)) = true := by
      obtain ⟨d, hd, hlt⟩ := hopen
      simp only [anyOpen, List.any_eq_true]
      exact ⟨d, hd, by simpa using hlt⟩
    simp only [simulateDebtPayoff, simulateFull, minFallbackOf] at hbudget ⊢
    rw [hfuel]
    simp only [simLoop]
    rw [if_neg (by simpa [minFallbackOf] using hne), if_neg (by push_neg; exact hbudget),
      if_pos (by simpa [minFallbackOf] using hopen')]
    exact ⟨rfl, rfl⟩

def c3wopts : DebtPayoffSimulationOptions :=
  { strategy := .avalanche, maxMonths := some 0, startDate := some c3start }

theorem simulateDebtPayoff_total_witness :
    (simulateDebtPayoff c3start c3render c3debts c3wopts).warning =
        some "Payment plan too long; increase payments" ∧
      (simulateDebtPayoff c3start c3render c3debts c3wopts).months = none :=
  (simulateDebtPayoff_total c3start c3render c3debts c3wopts).2
    (by decide) (by decide) (by decide)

/-! ### C5: identical inputs give identical results (ambient clock ignored) -/

/-- **C5** — with an explicitly supplied `startDate` the result does not
depend on the ambient clock: two calls with identical inputs are identical
(the embedding is pure; the source mutates only the fresh `SimDebt` copies
built at lines 63–71, never the caller's `Debt` objects). -/
theorem simulateFull_clock_independent (render : LocalDT → String)
    (debts : List Debt) (options : DebtPayoffSimulationOptions)
    (sys1 sys2 d : LocalDT) (h : options.startDate = some d) :
    simulateFull sys1 render debts options = simulateFull sys2 render debts options := by
  simp only [simulateFull, h, Option.getD_some]

def c5start : LocalDT := ⟨2022, 3, 10, 0⟩

def c5render : LocalDT → String := fun _ => ""

def c5debts : List Debt := [⟨"x", 50, none, .payable, false, some 24, some 25⟩]

def c5opts : DebtPayoffSimulationOptions :=
  { strategy := .snowball, extraPrincipalBudget := some 5, startDate := some c5start }

theorem simulateFull_clock_independent_witness :
    simulateFull ⟨2024, 0, 1, 0⟩ c5render c5debts c5opts =
      simulateFull ⟨2030, 11, 31, 0⟩ c5render c5debts c5opts :=
  simulateFull_clock_independent c5render c5debts c5opts _ _ c5start rfl

/-! ### Simulator bookkeeping lemmas -/

/-- The computed monthly principal budget (line 86). -/
def budgetOf (debts : List Debt) (options : DebtPayoffSimulationOptions) : ℚ :=
  ((scheduledOf debts (minFallbackOf options)).map (·.minPay)).sum +
    max 0 (options.extraPrincipalBudget.getD 0)

theorem list_set_getD_self (m : List α) (i : ℕ) (dflt : α) :
    m.set i (m.getD i dflt) = m := by
  induction m generalizing i with
  | nil => rfl
  | cons a l ih =>
    cases i with
    | zero => rfl
    | succ j => simpa [List.set, List.getD] using ih j

theorem anyOpen_iff (l : List SimDebt) :
    anyOpen l = true ↔ ∃ d ∈ l, 1/2 < d.balance := by
  simp [anyOpen, List.any_eq_true]

theorem simLoop_months_le (strategy : DebtPayoffStrategy) (budget : ℚ)
    (startDate : LocalDT) (fuel months : ℕ) (st : SimState) :
    (simLoop strategy budget startDate fuel months st).1 ≤ months + fuel := by
  induction fuel generalizing months st with
  | zero => simp [simLoop]
  | succ n ih =>
    rw [simLoop]
    split_ifs
    · exact le_trans (ih (months + 1) _) (by omega)
    · omega

theorem simLoop_months_cast_le (strategy : DebtPayoffStrategy) (budget : ℚ)
    (startDate : LocalDT) (fuel : ℕ) (st : SimState) :
    ((simLoop strategy budget startDate fuel 0 st).1 : ℤ) ≤ (fuel : ℤ) := by
  have := simLoop_months_le strategy budget startDate fuel 0 st
  omega

/-- **C1 (amended)** — the month loop runs at most `max 0 maxMonths`
iterations, and whenever the computed budget is positive (or no debt is
scheduled) exactly one of the claim's two outcomes holds: all working
balances ≤ 0.5 with a `null` warning and `months` equal to the loop count,
or an open balance remains with the divergence warning, `months` and
`payoffDate` `null`, and the budget, partial interest total and partial
per-debt map still returned. -/
theorem simulateDebtPayoff_terminates_dichotomy (sysNow : LocalDT)
    (render : LocalDT → String) (debts : List Debt)
    (options : DebtPayoffSimulationOptions)
    (hb : 0 < budgetOf debts options ∨ scheduledOf debts (minFallbackOf options) = []) :
    ((simulateFull sysNow render debts options).2.1 : ℤ) ≤
        max 0 (options.maxMonths.getD 600) ∧
    ((∀ d ∈ ((simulateFull sysNow render debts options).2.2).scheduled,
        d.balance ≤ 1/2) →
      (simulateFull sysNow render debts options).1.warning = none ∧
      (simulateFull sysNow render debts options).1.months =
        some (simulateFull sysNow render debts options).2.1) ∧
    ((∃ d ∈ ((simulateFull sysNow render debts options).2.2).scheduled,
        1/2 < d.balance) →
      (simulateFull sysNow render debts options).1.warning =
          some "Payment plan too long; increase payments" ∧
      (simulateFull sysNow render debts options).1.months = none ∧
      (simulateFull sysNow render debts options).1.payoffDate = none ∧
      (simulateFull sysNow render debts options).1.monthlyPrincipalBudget =
        budgetOf debts options ∧
      (simulateFull sysNow render debts options).1.totalInterestPaid =
        ((simulateFull sysNow render debts options).2.2).totalInterestPaid ∧
      (simulateFull sysNow render debts options).1.perDebt =
        ((simulateFull sysNow render debts options).2.2).pdr) := by
  simp only [simulateFull, budgetOf, minFallbackOf] at hb ⊢
  split_ifs with hEmpty hBudget hOpen
  · refine ⟨by positivity, fun _ => ⟨rfl, rfl⟩, fun hex => ?_⟩
    obtain ⟨d, hd, _⟩ := hex
    dsimp only at hd
    rw [List.isEmpty_iff.mp hEmpty] at hd
    exact absurd hd (List.not_mem_nil d)
  · exfalso
    rcases hb with hpos | hnil
    · exact absurd hBudget (by push_neg; exact hpos)
    · exact hEmpty (by simp [hnil, List.isEmpty])
  · refine ⟨?_, fun hall => ?_, fun _ => ?_⟩
    · dsimp only
      refine le_trans (simLoop_months_cast_le _ _ _ _ _) ?_
      omega
    · exfalso
      rw [anyOpen_iff] at hOpen
      obtain ⟨d, hd, hlt⟩ := hOpen
      exact absurd hlt (by simpa using hall d hd)
    · exact ⟨rfl, rfl, rfl, rfl, rfl, rfl⟩
  · refine ⟨?_, fun _ => ⟨rfl, rfl⟩, fun hex => ?_⟩
    · dsimp only
      refine le_trans (simLoop_months_cast_le _ _ _ _ _) ?_
      omega
    · exfalso
      obtain ⟨d, hd, hlt⟩ := hex
      exact absurd (anyOpen_iff _ |>.mpr ⟨d, hd, hlt⟩) hOpen

def c1start : LocalDT := ⟨2021, 0, 1, 0⟩

def c1render : LocalDT → String := fun _ => ""

def c1debts : List Debt := [⟨"a", 100, none, .payable, false, some 0, some 0⟩]

def c1opts : DebtPayoffSimulationOptions :=
  { strategy := .avalanche, extraPrincipalBudget := some 0, startDate := some c1start }

/-- **C1 counterexample** — with one scheduled debt of balance 100 and zero
minimum payment (budget 0), the result carries the configuration warning:
neither claimed outcome (success with `warning = null`, or the divergence
warning string) holds, refuting the claimed dichotomy over all options. -/
theorem simulateDebtPayoff_dichotomy_fails_on_config :
    (simulateDebtPayoff c1start c1render c1debts c1opts).warning =
        some "Set monthly payments to project payoff" ∧
      (simulateDebtPayoff c1start c1render c1debts c1opts).warning ≠ none ∧
      (simulateDebtPayoff c1start c1render c1debts c1opts).warning ≠
        some "Payment plan too long; increase payments" ∧
      (simulateDebtPayoff c1start c1render c1debts c1opts).months = none ∧
      anyOpen ((simulateFull c1start c1render c1debts c1opts).2.2).scheduled = true :=
  ⟨by decide, by decide, by decide, by decide, by decide⟩

theorem simulateDebtPayoff_terminates_dichotomy_witness :
    ((simulateFull c2start c2render c2debts c2opts).2.1 : ℤ) ≤
        max 0 (c2opts.maxMonths.getD 600) ∧
      (simulateFull c2start c2render c2debts c2opts).1.warning = none ∧
      (simulateFull c2start c2render c2debts c2opts).1.months =
        some (simulateFull c2start c2render c2debts c2opts).2.1 :=
  ⟨(simulateDebtPayoff_terminates_dichotomy c2start c2render c2debts c2opts
      (Or.inl (by decide))).1,
   (simulateDebtPayoff_terminates_dichotomy c2start c2render c2debts c2opts
      (Or.inl (by decide))).2.1 (by decide)⟩

/-! ### C10: the fixed-minimum pass -/

/-- The full fixed minimum payment applied to one working debt. -/
def minPayApplied (d : SimDebt) : SimDebt :=
  if 1/2 < d.balance then { d with balance := d.balance - min d.minPay d.balance } else d

theorem minPayApplied_of_zero {d : SimDebt} (h : d.minPay = 0) : minPayApplied d = d := by
  obtain ⟨i, b, r, mp, dd⟩ := d
  dsimp only at h
  subst h
  unfold minPayApplied
  split_ifs with h1
  · dsimp only at h1 ⊢
    rw [min_eq_left (by linarith), sub_zero]
  · rfl

theorem map_eq_self_of_all {l : List α} {f : α → α} (h : ∀ x ∈ l, f x = x) :
    l.map f = l := by
  induction l with
  | nil => rfl
  | cons a t ih =>
    rw [List.map_cons, h a (List.mem_cons_self a t),
      ih fun x hx => h x (List.mem_cons_of_mem a hx)]

theorem sum_nonpos_all_zero {l : List SimDebt} (hnn : ∀ d ∈ l, 0 ≤ d.minPay)
    (hs : (l.map (·.minPay)).sum ≤ 0) : ∀ d ∈ l, d.minPay = 0 := by
  induction l with
  | nil => intro d hd; exact absurd hd (List.not_mem_nil d)
  | cons a t ih =>
    have ht : 0 ≤ (t.map (·.minPay)).sum :=
      List.sum_nonneg (by
        intro x hx
        obtain ⟨d, hd, rfl⟩ := List.mem_map.mp hx
        exact hnn d (List.mem_cons_of_mem a hd))
    rw [List.map_cons, List.sum_cons] at hs
    have ha0 : a.minPay = 0 :=
      le_antisymm (by linarith) (hnn a (List.mem_cons_self a t))
    intro d hd
    rcases List.mem_cons.mp hd with rfl | hd
    · exact ha0
    · exact ih (fun x hx => hnn x (List.mem_cons_of_mem a hx)) (by linarith) d hd

/-- The fixed-minimum pass under its actual preconditions: with the pass
budget at least the (nonnegative) minimum payments of the whole schedule,
every open debt receives its full `min(minPay, balance)` payment — even when
the `remainingPrincipal ≤ 0` break triggers, since that requires every
remaining minimum to be zero — and the remaining budget never goes negative. -/
theorem minPaymentPass_full (months : ℕ) (payoffDate : LocalDT)
    (pdi : PerDebtInterest) (l : List SimDebt) (rem : ℚ) (pdr : PerDebtResults)
    (h0 : 0 ≤ rem) (hsum : (l.map (·.minPay)).sum ≤ rem)
    (hnn : ∀ d ∈ l, 0 ≤ d.minPay) :
    (minPaymentPass months payoffDate pdi l rem pdr).1 = l.map minPayApplied ∧
      0 ≤ (minPaymentPass months payoffDate pdi l rem pdr).2.1 := by
  induction l generalizing rem pdr with
  | nil => exact ⟨rfl, h0⟩
  | cons d ds ih =>
    have hd0 : 0 ≤ d.minPay := hnn d (List.mem_cons_self d ds)
    have hds : ∀ x ∈ ds, 0 ≤ x.minPay := fun x hx => hnn x (List.mem_cons_of_mem d hx)
    have hsum_ds : 0 ≤ (ds.map (·.minPay)).sum :=
      List.sum_nonneg (by
        intro x hx
        obtain ⟨e, he, rfl⟩ := List.mem_map.mp hx
        exact hds e he)
    rw [List.map_cons, List.sum_cons] at hsum
    rw [minPaymentPass]
    split_ifs with hdead hbreak
    · have hrec := ih rem pdr h0 (by linarith) hds
      refine ⟨?_, hrec.2⟩
      dsimp only
      rw [List.map_cons, minPayApplied, if_neg (by push_neg; exact hdead)]
      exact congrArg (d :: ·) hrec.1
    · have hzero : ∀ x ∈ d :: ds, x.minPay = 0 := by
        refine sum_nonpos_all_zero hnn ?_
        rw [List.map_cons, List.sum_cons]
        linarith
      exact ⟨(map_eq_self_of_all fun x hx =>
        minPayApplied_of_zero (hzero x hx)).symm, h0⟩
    · have hbal : 1/2 < d.balance := by push_neg at hdead; exact hdead
      have hpay : min (min d.minPay d.balance) rem = min d.minPay d.balance :=
        min_eq_left (le_trans (min_le_left _ _) (by linarith))
      have hrem' : 0 ≤ rem - min (min d.minPay d.balance) rem := by
        have := min_le_right (min d.minPay d.balance) rem
        linarith [le_min (le_of_lt (lt_of_lt_of_le (by norm_num : (0:ℚ) < 1/2) (le_of_lt hbal))) h0]
      have hsum' : (ds.map (·.minPay)).sum ≤ rem - min (min d.minPay d.balance) rem := by
        rw [hpay]
        have := min_le_left d.minPay d.balance
        linarith
      constructor
      · dsimp only
        rw [List.map_cons]
        refine congrArg₂ (· :: ·) ?_ (ih _ _ hrem' hsum' hds).1
        rw [minPayApplied, if_pos hbal, hpay]
      · dsimp only
        exact (ih _ _ hrem' hsum' hds).2

theorem minPaymentPass_minPay_map (months : ℕ) (payoffDate : LocalDT)
    (pdi : PerDebtInterest) (l : List SimDebt) (rem : ℚ) (pdr : PerDebtResults) :
    ((minPaymentPass months payoffDate pdi l rem pdr).1).map (·.minPay) =
      l.map (·.minPay) := by
  induction l generalizing rem pdr with
  | nil => rfl
  | cons d ds ih =>
    rw [minPaymentPass]
    split_ifs
    · dsimp only
      rw [List.map_cons, List.map_cons, ih]
    · rfl
    · dsimp only
      rw [List.map_cons, List.map_cons, ih]

theorem surplusPass_minPay_map (months : ℕ) (payoffDate : LocalDT)
    (pdi : PerDebtInterest) (idxs : List ℕ) (sched : List SimDebt) (rem : ℚ)
    (pdr : PerDebtResults) :
    ((surplusPass months payoffDate pdi idxs sched rem pdr).1).map (·.minPay) =
      sched.map (·.minPay) := by
  induction idxs generalizing sched rem pdr with
  | nil => rfl
  | cons i is ih =>
    rw [surplusPass]
    split_ifs
    · rfl
    · rw [ih, List.map_set]
      have h1 : (sched.getD i default).minPay =
          (sched.map (·.minPay)).getD i ((default : SimDebt).minPay) :=
        (List.getD_map sched default (·.minPay)).symm
      dsimp only
      rw [h1, list_set_getD_self]

theorem monthPass_minPay_map (strategy : DebtPayoffStrategy) (budget : ℚ)
    (startDate : LocalDT) (months : ℕ) (st : SimState) :
    ((monthPass strategy budget startDate months st).scheduled).map (·.minPay) =
      st.scheduled.map (·.minPay) := by
  dsimp only [monthPass]
  split_ifs
  · rw [surplusPass_minPay_map, minPaymentPass_minPay_map]
  · rw [minPaymentPass_minPay_map]

theorem simLoop_minPay_map (strategy : DebtPayoffStrategy) (budget : ℚ)
    (startDate : LocalDT) (fuel months : ℕ) (st : SimState) :
    (((simLoop strategy budget startDate fuel months st).2).scheduled).map (·.minPay) =
      st.scheduled.map (·.minPay) := by
  induction fuel generalizing months st with
  | zero => rfl
  | succ n ih =>
    rw [simLoop]
    split_ifs
    · rw [ih, monthPass_minPay_map]
    · rfl

/-- **C10 (amended)** — (i) with the pass budget at least the schedule's
(nonnegative) total minimum payment, the fixed-minimum pass pays every open
debt its full `min(minPay, balance)` and its remaining budget never becomes
negative (the `≤ 0` break can only trigger once every remaining minimum
payment is zero, so no payment is skipped — but the break itself is
reachable, see the counterexample); (ii) the initial schedule satisfies
those preconditions against the monthly budget; (iii) minimum payments are
preserved by the month loop, so they hold in every simulated month. -/
theorem simulateDebtPayoff_minimums_honored :
    (∀ (months : ℕ) (payoffDate : LocalDT) (pdi : PerDebtInterest)
        (l : List SimDebt) (rem : ℚ) (pdr : PerDebtResults),
        0 ≤ rem → (l.map (·.minPay)).sum ≤ rem → (∀ d ∈ l, 0 ≤ d.minPay) →
        (minPaymentPass months payoffDate pdi l rem pdr).1 = l.map minPayApplied ∧
          0 ≤ (minPaymentPass months payoffDate pdi l rem pdr).2.1) ∧
    (∀ (debts : List Debt) (options : DebtPayoffSimulationOptions),
        (∀ d ∈ scheduledOf debts (minFallbackOf options), 0 ≤ d.minPay) ∧
        ((scheduledOf debts (minFallbackOf options)).map (·.minPay)).sum ≤
          budgetOf debts options) ∧
    (∀ (strategy : DebtPayoffStrategy) (budget : ℚ) (startDate : LocalDT)
        (fuel months : ℕ) (st : SimState),
        (((simLoop strategy budget startDate fuel months st).2).scheduled).map (·.minPay) =
          st.scheduled.map (·.minPay)) := by
  refine ⟨minPaymentPass_full, fun debts options => ⟨?_, ?_⟩, simLoop_minPay_map⟩
  · intro d hd
    simp only [scheduledOf, List.mem_map] at hd
    obtain ⟨e, _, rfl⟩ := hd
    exact le_max_left 0 _
  · exact le_add_of_nonneg_right (le_max_left 0 _)

def c10start : LocalDT := ⟨2020, 5, 5, 0⟩

def c10render : LocalDT → String := fun _ => ""

def c10debts : List Debt :=
  [⟨"A", 200, none, .payable, false, some 0, some 100⟩,
   ⟨"B", 50, none, .payable, false, some 0, some 0⟩]

def c10opts : DebtPayoffSimulationOptions :=
  { strategy := .avalanche, extraPrincipalBudget := some 0, startDate := some c10start }

/-- **C10 counterexample** — the `remainingPrincipal ≤ 0` break in the
fixed-minimum pass is reachable: with debts A (balance 200, minimum 100) and
B (balance 50, minimum 0) the whole budget is consumed by A and the loop
breaks at the still-open B (harmlessly, since B's minimum is 0). -/
theorem minPaymentPass_break_reachable :
    ((simulateFull c10start c10render c10debts c10opts).2.2).brokeEarly = true ∧
      (simulateDebtPayoff c10start c10render c10debts c10opts).months = some 3 :=
  ⟨by decide, by decide⟩

theorem simulateDebtPayoff_minimums_honored_witness :
    (minPaymentPass 1 c10start [] (scheduledOf c10debts (minFallbackOf c10opts))
        100 []).1 =
      (scheduledOf c10debts (minFallbackOf c10opts)).map minPayApplied ∧
      0 ≤ (minPaymentPass 1 c10start []
        (scheduledOf c10debts (minFallbackOf c10opts)) 100 []).2.1 :=
  simulateDebtPayoff_minimums_honored.1 1 c10start [] _ 100 []
    (by norm_num) (by decide) (by decide)

/-! ### C8: weekly reminders are suppressed after a match this week -/

theorem reminderPayloadFor_habitId (p : HabitPattern) (dow : ℤ) :
    (reminderPayloadFor p dow).1.habitId = p.habitId := rfl

theorem candidateFor_habitId {txs : List Transaction}
    {st : List (String × HabitReminderState)} {now : LocalDT} {p : HabitPattern}
    {c : HabitReminderCandidate} {sc : ℚ}
    (h : candidateFor txs st now p = some (c, sc)) : c.habitId = p.habitId := by
  unfold candidateFor at h
  dsimp only at h
  split_ifs at h <;>
    first
      | exact Option.noConfusion h
      | (rw [Option.some.injEq] at h
         have h2 : (reminderPayloadFor p (getDay now)).1 = c := congrArg Prod.fst h
         rw [← h2]
         exact reminderPayloadFor_habitId p (getDay now))

/-- A weekly pattern with a matching transaction dated on or after the most
recent Monday fails the due policy. -/
theorem passesDuePolicy_weekly_false {p : HabitPattern} {l : List Transaction}
    {now : LocalDT} (hweek : p.intervalType = HabitIntervalType.weekly)
    (h : ∃ t ∈ l, ¬ toMs t.date < toMs (startOfWeek now)) :
    passesDuePolicy p l now = false := by
  obtain ⟨t, ht, hd⟩ := h
  have hAny : (l.any fun t => decide ¬(toMs t.date < toMs (startOfWeek now))) = true :=
    List.any_eq_true.mpr ⟨t, ht, by simpa using hd⟩
  unfold passesDuePolicy
  rw [hweek]
  simp only [reduceIte, hAny]

/-- A weekly pattern with a matching transaction dated on or after the most
recent Monday produces no candidate, whatever its score, state or the other
gates. -/
theorem candidateFor_weekly_none {txs : List Transaction}
    {st : List (String × HabitReminderState)} {now : LocalDT} {p : HabitPattern}
    (hweek : p.intervalType = HabitIntervalType.weekly)
    (hmatch : ∃ t ∈ txs, matchesPattern t p = true ∧
      ¬ toMs t.date < toMs (startOfWeek now)) :
    candidateFor txs st now p = none := by
  obtain ⟨t, ht, hm, hd⟩ := hmatch
  have hpol : passesDuePolicy p (sortByJs (fun a b => decide (toMs a.date ≤ toMs b.date))
      (txs.filter (matchesPattern · p))) now = false :=
    passesDuePolicy_weekly_false hweek
      ⟨t, mem_sortByJs.mpr (List.mem_filter.mpr ⟨ht, hm⟩), hd⟩
  unfold candidateFor
  dsimp only
  split_ifs
  all_goals first
    | rfl
    | simp_all [hpol]

theorem findDueHabitReminder_mem {patterns : List HabitPattern}
    {txs : List Transaction} {st : List (String × HabitReminderState)}
    {now : LocalDT} {c : HabitReminderCandidate}
    (h : findDueHabitReminder patterns txs st now = some c) :
    ∃ q ∈ patterns, q.active = true ∧ ∃ sc, candidateFor txs st now q = some (c, sc) := by
  unfold findDueHabitReminder at h
  rw [Option.map_eq_some'] at h
  obtain ⟨pair, hhead, hc⟩ := h
  have hmem := mem_sortByJs.mp (List.mem_of_mem_head? hhead)
  obtain ⟨q, hq, hcf⟩ := List.mem_filterMap.mp hmem
  rcases List.mem_filter.mp hq with ⟨hqp, hact⟩
  exact ⟨q, hqp, by simpa using hact, pair.2, by rw [hcf, ← hc]⟩

/-- **C8 (amended)** — an active weekly pattern with a match since the most
recent Monday never contributes the returned candidate: provided no other
pattern in the list carries the same `habitId`, the returned reminder (if
any) has a different `habitId`. (With duplicated `habitId`s another pattern
can return a candidate bearing the same id — see the counterexample.) -/
theorem findDueHabitReminder_weekly_skip (patterns : List HabitPattern)
    (txs : List Transaction) (st : List (String × HabitReminderState))
    (now : LocalDT) (p : HabitPattern) (_hmem : p ∈ patterns)
    (hweek : p.intervalType = HabitIntervalType.weekly)
    (hmatch : ∃ t ∈ txs, matchesPattern t p = true ∧
      ¬ toMs t.date < toMs (startOfWeek now))
    (huniq : ∀ q ∈ patterns, q.habitId = p.habitId → q = p)
    (c : HabitReminderCandidate)
    (hr : findDueHabitReminder patterns txs st now = some c) :
    c.habitId ≠ p.habitId := by
  intro hid
  obtain ⟨q, hq, _, sc, hcf⟩ := findDueHabitReminder_mem hr
  have hqid : q.habitId = p.habitId := by rw [← candidateFor_habitId hcf, hid]
  have hqp : q = p := huniq q hq hqid
  rw [hqp, candidateFor_weekly_none hweek hmatch] at hcf
  exact absurd hcf (by simp)

def c8now : LocalDT := ⟨2024, 0, 15, 72000000⟩

def c8txs : List Transaction :=
  [⟨"t1", 480, Category.Food, ⟨2024, 0, 15, 32400000⟩, "Cafe Latte", .expense, none⟩]

def c8p1 : HabitPattern :=
  { habitId := "h", category := Category.Food, merchantKey := some "cafe latte",
    amountBucket := none, amountMedian := 500, amountMad := none,
    intervalType := .weekly, intervalDaysMedian := some 7,
    dowProb := [0, 1, 0, 0, 0, 0, 0], timeWindowStartMin := none,
    timeWindowEndMin := none, active := true, updatedAt := "" }

def c8p2 : HabitPattern :=
  { habitId := "h", category := Category.Transport, merchantKey := none,
    amountBucket := some 999, amountMedian := 999, amountMad := none,
    intervalType := .daily, intervalDaysMedian := some 1,
    dowProb := [0, 7/10, 0, 0, 0, 0, 0], timeWindowStartMin := none,
    timeWindowEndMin := none, active := true, updatedAt := "" }

def c8pats : List HabitPattern := [c8p1, c8p2]

/-- **C8 counterexample** — two active patterns share `habitId = "h"`: the
weekly one has a match this week (so it is gated), yet the reminder returned
for the unrelated daily pattern carries that very `habitId`, refuting
"never returns a candidate for that pattern's habitId" as stated. -/
theorem findDueHabitReminder_weekly_skip_counterexample :
    (c8p1.active = true ∧ c8p1.intervalType = HabitIntervalType.weekly ∧
      (∃ t ∈ c8txs, matchesPattern t c8p1 = true ∧
        ¬ toMs t.date < toMs (startOfWeek c8now))) ∧
      (findDueHabitReminder c8pats c8txs [] c8now).map (·.habitId) =
        some c8p1.habitId :=
  ⟨⟨by decide, by decide, by decide⟩, by decide⟩

def c8p1w : HabitPattern := { c8p1 with habitId := "h1" }

def c8p2w : HabitPattern := { c8p2 with habitId := "h2" }

def c8wpats : List HabitPattern := [c8p1w, c8p2w]

def c8expected : HabitReminderCandidate :=
  (findDueHabitReminder c8wpats c8txs [] c8now).getD default

theorem findDueHabitReminder_weekly_skip_witness :
    findDueHabitReminder c8wpats c8txs [] c8now = some c8expected ∧
      c8expected.habitId ≠ c8p1w.habitId :=
  ⟨by decide,
   findDueHabitReminder_weekly_skip c8wpats c8txs [] c8now c8p1w
     (by decide) (by decide) (by decide) (by decide) c8expected (by decide)⟩

/-- For a total, transitive comparator, the JS stable sort commutes with
filtering (filtering preserves relative order; sorting re-ranks by key and
original position). -/
theorem sortByJs_filter_comm {le : α → α → Bool} {p : α → Bool}
    (htot : ∀ a b, le a b = true ∨ le b a = true)
    (htr : ∀ a b c, le a b = true → le b c = true → le a c = true)
    (l : List α) :
    sortByJs le (l.filter p) = (sortByJs le l).filter p := by
  induction l with
  | nil => simp [sortByJs]
  | cons x xs ih =>
    have hsorted := sortByJs_pairwise htot htr xs
    by_cases hx : p x = true
    · have : (x :: xs).filter p = x :: xs.filter p := by simp [hx]
      rw [this, sortByJs, ih, sortByJs,
        filter_insertSorted htr hsorted, if_pos hx]
    · have : (x :: xs).filter p = xs.filter p := by simp [hx]
      rw [this, ih, sortByJs,
        filter_insertSorted htr hsorted, if_neg hx]

/-! ### C4: shape preservation through the passes -/

abbrev ShapeL : List SimDebt → List SimDebt → Prop := List.Forall₂ shapeEq

theorem shapeEq_symm {a b : SimDebt} (h : shapeEq a b) : shapeEq b a :=
  ⟨h.1.symm, h.2.1.symm, h.2.2.1.symm, h.2.2.2.symm⟩

theorem shapeL_refl (l : List SimDebt) : ShapeL l l :=
  List.forall₂_same.mpr fun d _ => shapeEq_refl d

theorem shapeL_symm {l m : List SimDebt} (h : ShapeL l m) : ShapeL m l := by
  induction h with
  | nil => exact List.Forall₂.nil
  | cons hd _ ih => exact List.Forall₂.cons (shapeEq_symm hd) ih

theorem shapeL_trans {l m m' : List SimDebt} (h1 : ShapeL l m) (h2 : ShapeL m m') :
    ShapeL l m' := by
  induction h1 generalizing m' with
  | nil => cases h2; exact List.Forall₂.nil
  | cons hd _ ih =>
    cases h2 with
    | cons hd2 ht2 => exact List.Forall₂.cons (shapeEq_trans hd hd2) (ih ht2)

theorem domL_shapeL {l m : List SimDebt} (h : DomL l m) : ShapeL l m :=
  h.imp fun _ _ hab => hab.1

theorem domL_of_shapeL_dead {l m : List SimDebt} (hs : ShapeL l m)
    (hd : ∀ d ∈ m, d.balance ≤ 1/2) : DomL l m := by
  induction hs with
  | nil => exact List.Forall₂.nil
  | cons hh _ ih =>
    exact List.Forall₂.cons ⟨hh, Or.inl (hd _ (List.mem_cons_self _ _))⟩
      (ih fun d hdm => hd d (List.mem_cons_of_mem _ hdm))

theorem anyOpen_of_domL {l m : List SimDebt} (h : DomL l m)
    (hm : anyOpen m = true) : anyOpen l = true := by
  rw [anyOpen_iff] at hm ⊢
  obtain ⟨b, hbm, hb⟩ := hm
  induction h with
  | nil => exact absurd hbm (List.not_mem_nil b)
  | cons hd _ ih =>
    rcases List.mem_cons.mp hbm with rfl | hbm'
    · exact ⟨_, List.mem_cons_self _ _, (dom_alive_left hd hb).2⟩
    · obtain ⟨a, ha, hopen⟩ := ih hbm'
      exact ⟨a, List.mem_cons_of_mem _ ha, hopen⟩

theorem minPaymentPass_shape (months : ℕ) (pd : LocalDT) (pdi : PerDebtInterest)
    (l : List SimDebt) (r : ℚ) (pdr : PerDebtResults) :
    ShapeL l (minPaymentPass months pd pdi l r pdr).1 := by
  induction l generalizing r pdr with
  | nil => exact List.Forall₂.nil
  | cons d ds ih =>
    rw [minPaymentPass]
    split_ifs
    · exact List.Forall₂.cons (shapeEq_refl d) (ih r pdr)
    · exact shapeL_refl _
    · exact List.Forall₂.cons ⟨rfl, rfl, rfl, rfl⟩ (ih _ _)

theorem surplusPass_shape (months : ℕ) (pd : LocalDT) (pdi : PerDebtInterest)
    (idxs : List ℕ) (sched : List SimDebt) (rem : ℚ) (pdr : PerDebtResults) :
    ShapeL sched (surplusPass months pd pdi idxs sched rem pdr).1 := by
  induction idxs generalizing sched rem pdr with
  | nil => exact shapeL_refl _
  | cons i is ih =>
    rw [surplusPass]
    split_ifs
    · exact shapeL_refl _
    · refine shapeL_trans (forall₂_set_right (shapeL_refl sched) i ?_) (ih _ _ _)
      exact ⟨rfl, rfl, rfl, rfl⟩

theorem monthPass_shape (strategy : DebtPayoffStrategy) (budget : ℚ)
    (startDate : LocalDT) (months : ℕ) (st : SimState) :
    ShapeL st.scheduled (monthPass strategy budget startDate months st).scheduled := by
  dsimp only [monthPass]
  split_ifs
  · exact shapeL_trans (minPaymentPass_shape _ _ _ _ _ _) (surplusPass_shape _ _ _ _ _ _ _)
  · exact minPaymentPass_shape _ _ _ _ _ _

theorem simLoop_shape (strategy : DebtPayoffStrategy) (budget : ℚ)
    (startDate : LocalDT) (fuel months : ℕ) (st : SimState) :
    ShapeL st.scheduled ((simLoop strategy budget startDate fuel months st).2).scheduled := by
  induction fuel generalizing months st with
  | zero => exact shapeL_refl _
  | succ n ih =>
    rw [simLoop]
    split_ifs
    · exact shapeL_trans (monthPass_shape _ _ _ _ _) (ih _ _)
    · exact shapeL_refl _

/-! ### C4: the fixed-minimum pass under a larger budget -/

theorem minPaymentPass_cons_dead (months : ℕ) (pd : LocalDT) (pdi : PerDebtInterest)
    (d : SimDebt) (ds : List SimDebt) (r : ℚ) (pdr : PerDebtResults)
    (hdead : d.balance ≤ 1/2) :
    minPaymentPass months pd pdi (d :: ds) r pdr =
      (d :: (minPaymentPass months pd pdi ds r pdr).1,
       (minPaymentPass months pd pdi ds r pdr).2) := by
  rw [minPaymentPass, if_pos hdead]

theorem minPaymentPass_cons_break (months : ℕ) (pd : LocalDT) (pdi : PerDebtInterest)
    (d : SimDebt) (ds : List SimDebt) (r : ℚ) (pdr : PerDebtResults)
    (hdead : ¬ d.balance ≤ 1/2) (hbrk : r ≤ 0) :
    minPaymentPass months pd pdi (d :: ds) r pdr = (d :: ds, r, pdr, true) := by
  rw [minPaymentPass, if_neg hdead, if_pos hbrk]

theorem minPaymentPass_cons_pay (months : ℕ) (pd : LocalDT) (pdi : PerDebtInterest)
    (d : SimDebt) (ds : List SimDebt) (r : ℚ) (pdr : PerDebtResults)
    (hdead : ¬ d.balance ≤ 1/2) (hbrk : ¬ r ≤ 0) :
    minPaymentPass months pd pdi (d :: ds) r pdr =
      ({ d with balance := d.balance - min (min d.minPay d.balance) r } ::
        (minPaymentPass months pd pdi ds (r - min (min d.minPay d.balance) r)
          (if d.balance - min (min d.minPay d.balance) r ≤ 1/2
            then recordPayoff
              { d with balance := d.balance - min (min d.minPay d.balance) r }
              months pd pdi pdr
            else pdr)).1,
       (minPaymentPass months pd pdi ds (r - min (min d.minPay d.balance) r)
          (if d.balance - min (min d.minPay d.balance) r ≤ 1/2
            then recordPayoff
              { d with balance := d.balance - min (min d.minPay d.balance) r }
              months pd pdi pdr
            else pdr)).2) := by
  rw [minPaymentPass, if_neg hdead, if_neg hbrk]

theorem minPaymentPass_rem_nonneg (months : ℕ) (pd : LocalDT) (pdi : PerDebtInterest)
    (l : List SimDebt) (r : ℚ) (pdr : PerDebtResults) (h0 : 0 ≤ r) :
    0 ≤ (minPaymentPass months pd pdi l r pdr).2.1 := by
  induction l generalizing r pdr with
  | nil => exact h0
  | cons d ds ih =>
    by_cases hdead : d.balance ≤ 1/2
    · rw [minPaymentPass_cons_dead months pd pdi d ds r pdr hdead]
      exact ih r pdr h0
    · by_cases hbrk : r ≤ 0
      · rw [minPaymentPass_cons_break months pd pdi d ds r pdr hdead hbrk]
        exact h0
      · rw [minPaymentPass_cons_pay months pd pdi d ds r pdr hdead hbrk]
        exact ih _ _ (by linarith [min_le_right (min d.minPay d.balance) r])

theorem minPaymentPass_decr (months : ℕ) (pd : LocalDT) (pdi : PerDebtInterest)
    (l : List SimDebt) (r : ℚ) (pdr : PerDebtResults)
    (hmp : ∀ d ∈ l, 0 ≤ d.minPay) :
    DecrL l (minPaymentPass months pd pdi l r pdr).1 := by
  induction l generalizing r pdr with
  | nil => exact List.Forall₂.nil
  | cons d ds ih =>
    have hmpd : 0 ≤ d.minPay := hmp d (List.mem_cons_self d ds)
    have hmps : ∀ x ∈ ds, 0 ≤ x.minPay := fun x hx => hmp x (List.mem_cons_of_mem d hx)
    by_cases hdead : d.balance ≤ 1/2
    · rw [minPaymentPass_cons_dead months pd pdi d ds r pdr hdead]
      exact List.Forall₂.cons (decr_refl d) (ih r pdr hmps)
    · by_cases hbrk : r ≤ 0
      · rw [minPaymentPass_cons_break months pd pdi d ds r pdr hdead hbrk]
        exact decrL_refl _
      · rw [minPaymentPass_cons_pay months pd pdi d ds r pdr hdead hbrk]
        refine List.Forall₂.cons ⟨⟨rfl, rfl, rfl, rfl⟩, ?_⟩ (ih _ _ hmps)
        have hb : 1/2 < d.balance := not_le.mp hdead
        have hr : 0 < r := not_le.mp hbrk
        have : 0 ≤ min (min d.minPay d.balance) r :=
          le_min (le_min hmpd (by linarith)) (by linarith)
        dsimp only
        linarith

theorem minPaymentPass_mono (m1 m2 : ℕ) (pd1 pd2 : LocalDT)
    (pdi1 pdi2 : PerDebtInterest) {l m : List SimDebt} (h : DomL l m) :
    ∀ {r1 r2 : ℚ} (pdr1 pdr2 : PerDebtResults), r1 ≤ r2 → 0 ≤ r1 →
      (∀ d ∈ m, 0 ≤ d.minPay) →
      DomL (minPaymentPass m1 pd1 pdi1 l r1 pdr1).1
          (minPaymentPass m2 pd2 pdi2 m r2 pdr2).1 ∧
        (minPaymentPass m1 pd1 pdi1 l r1 pdr1).2.1 ≤
          (minPaymentPass m2 pd2 pdi2 m r2 pdr2).2.1 := by
  induction h with
  | nil => exact fun pdr1 pdr2 hr _ _ => ⟨List.Forall₂.nil, hr⟩
  | @cons a b lt mt hab htail ih =>
    intro r1 r2 pdr1 pdr2 hr h0 hmp
    have hmpb : 0 ≤ b.minPay := hmp b (List.mem_cons_self b mt)
    have hmps : ∀ x ∈ mt, 0 ≤ x.minPay := fun x hx => hmp x (List.mem_cons_of_mem b hx)
    have hmpa : 0 ≤ a.minPay := hab.1.2.2.1 ▸ hmpb
    by_cases hdeadA : a.balance ≤ 1/2
    · have hdeadB : b.balance ≤ 1/2 := dom_dead_right hab hdeadA
      rw [minPaymentPass_cons_dead m1 pd1 pdi1 a lt r1 pdr1 hdeadA,
        minPaymentPass_cons_dead m2 pd2 pdi2 b mt r2 pdr2 hdeadB]
      obtain ⟨hD, hR⟩ := ih pdr1 pdr2 hr h0 hmps
      exact ⟨List.Forall₂.cons hab hD, hR⟩
    · have hbalA : 1/2 < a.balance := not_le.mp hdeadA
      by_cases hbrk1 : r1 ≤ 0
      · rw [minPaymentPass_cons_break m1 pd1 pdi1 a lt r1 pdr1 hdeadA hbrk1]
        refine ⟨?_, ?_⟩
        · exact domL_comp_decrL (List.Forall₂.cons hab htail)
            (minPaymentPass_decr m2 pd2 pdi2 (b :: mt) r2 pdr2 hmp)
        · have := minPaymentPass_rem_nonneg m2 pd2 pdi2 (b :: mt) r2 pdr2 (by linarith)
          linarith
      · have hr1pos : 0 < r1 := not_le.mp hbrk1
        have hbrk2 : ¬ r2 ≤ 0 := by push_neg; linarith
        rw [minPaymentPass_cons_pay m1 pd1 pdi1 a lt r1 pdr1 hdeadA hbrk1]
        have hpay1 : 0 ≤ min (min a.minPay a.balance) r1 :=
          le_min (le_min hmpa (by linarith)) (by linarith)
        have hpay1' : min (min a.minPay a.balance) r1 ≤ r1 := min_le_right _ _
        by_cases hdeadB : b.balance ≤ 1/2
        · rw [minPaymentPass_cons_dead m2 pd2 pdi2 b mt r2 pdr2 hdeadB]
          have hrA : r1 - min (min a.minPay a.balance) r1 ≤ r2 := by linarith
          have h0A : 0 ≤ r1 - min (min a.minPay a.balance) r1 := by linarith
          obtain ⟨hD, hR⟩ := ih
            (if a.balance - min (min a.minPay a.balance) r1 ≤ 1/2
              then recordPayoff
                { a with balance := a.balance - min (min a.minPay a.balance) r1 }
                m1 pd1 pdi1 pdr1
              else pdr1) pdr2 hrA h0A hmps
          refine ⟨List.Forall₂.cons ⟨?_, Or.inl hdeadB⟩ hD, hR⟩
          exact shapeEq_trans ⟨rfl, rfl, rfl, rfl⟩ hab.1
        · have hbalB : 1/2 < b.balance := not_le.mp hdeadB
          have hba : b.balance ≤ a.balance := (dom_alive_left hab hbalB).1
          rw [minPaymentPass_cons_pay m2 pd2 pdi2 b mt r2 pdr2 hdeadB hbrk2]
          have hmpeq : a.minPay = b.minPay := hab.1.2.2.1
          have hbal2 : b.balance - min (min b.minPay b.balance) r2 ≤
              a.balance - min (min a.minPay a.balance) r1 := by
            rw [← hmpeq]
            exact minPay_step_balance_mono hba hr
          have hrem2 : r1 - min (min a.minPay a.balance) r1 ≤
              r2 - min (min b.minPay b.balance) r2 := by
            rw [← hmpeq]
            exact minPay_step_rem_mono hba hr
          have h0A : 0 ≤ r1 - min (min a.minPay a.balance) r1 := by linarith
          obtain ⟨hD, hR⟩ := ih
            (if a.balance - min (min a.minPay a.balance) r1 ≤ 1/2
              then recordPayoff
                { a with balance := a.balance - min (min a.minPay a.balance) r1 }
                m1 pd1 pdi1 pdr1
              else pdr1)
            (if b.balance - min (min b.minPay b.balance) r2 ≤ 1/2
              then recordPayoff
                { b with balance := b.balance - min (min b.minPay b.balance) r2 }
                m2 pd2 pdi2 pdr2
              else pdr2) hrem2 h0A hmps
          refine ⟨List.Forall₂.cons ⟨?_, Or.inr hbal2⟩ hD, hR⟩
          exact shapeEq_trans ⟨rfl, rfl, rfl, rfl⟩
            (shapeEq_trans hab.1 ⟨rfl, rfl, rfl, rfl⟩)

/-! ### C4: interest accrual under domination -/

theorem interestPass_total_ge (l : List SimDebt) :
    ∀ (pdi : PerDebtInterest) (t : ℤ), t ≤ (interestPass l (pdi, t)).2 := by
  induction l with
  | nil => exact fun _ _ => le_refl _
  | cons d ds ih =>
    intro pdi t
    rw [interestPass]
    split_ifs with hdead
    · exact ih pdi t
    · dsimp only
      refine le_trans ?_ (ih _ _)
      have hbal : 1/2 < d.balance := not_le.mp hdead
      by_cases hmr : 0 < d.rate / 100 / 12
      · rw [if_pos hmr]
        have : 0 ≤ jsRound (d.balance * (d.rate / 100 / 12)) :=
          jsRound_nonneg (mul_nonneg (by linarith) (by linarith))
        omega
      · rw [if_neg hmr]
        omega

theorem interestPass_mono {l m : List SimDebt} (h : DomL l m) :
    ∀ (pdi1 pdi2 : PerDebtInterest) (t1 t2 : ℤ), t2 ≤ t1 →
      (interestPass m (pdi2, t2)).2 ≤ (interestPass l (pdi1, t1)).2 := by
  induction h with
  | nil => exact fun _ _ _ _ ht => ht
  | @cons a b lt mt hab _ ih =>
    intro pdi1 pdi2 t1 t2 ht
    rw [interestPass, interestPass]
    by_cases hdeadA : a.balance ≤ 1/2
    · rw [if_pos hdeadA, if_pos (dom_dead_right hab hdeadA)]
      exact ih pdi1 pdi2 t1 t2 ht
    · rw [if_neg hdeadA]
      dsimp only
      have hbalA : 1/2 < a.balance := not_le.mp hdeadA
      have hint1 : 0 ≤ if 0 < a.rate / 100 / 12
          then jsRound (a.balance * (a.rate / 100 / 12)) else 0 := by
        split_ifs with hmr
        · exact jsRound_nonneg (mul_nonneg (by linarith) (by linarith))
        · exact le_refl 0
      by_cases hdeadB : b.balance ≤ 1/2
      · rw [if_pos hdeadB]
        refine ih _ _ _ _ ?_
        omega
      · rw [if_neg hdeadB]
        have hrate : a.rate = b.rate := hab.1.2.1
        have hba : b.balance ≤ a.balance := (dom_alive_left hab (not_le.mp hdeadB)).1
        have hint2 : (if 0 < b.rate / 100 / 12
            then jsRound (b.balance * (b.rate / 100 / 12)) else 0) ≤
            (if 0 < a.rate / 100 / 12
            then jsRound (a.balance * (a.rate / 100 / 12)) else 0) := by
          rw [← hrate]
          split_ifs with hmr
          · exact jsRound_mono (mul_le_mul_of_nonneg_right hba (by linarith))
          · exact le_refl 0
        refine ih _ _ _ _ ?_
        omega

/-! ### C4: the surplus roll-over, rephrased over a fixed index order -/

/-- The surplus pass over an arbitrary index order, skipping indices whose
debt is already settled at visit time.  Over a duplicate-free index list it
agrees with `surplusPass` run on the pre-filtered open indices, because a
surplus payment only changes the balance at the index it visits. -/
def surplusSkip (months : ℕ) (pd : LocalDT) (pdi : PerDebtInterest) :
    List ℕ → List SimDebt → ℚ → PerDebtResults → List SimDebt × ℚ × PerDebtResults
  | [], sched, rem, pdr => (sched, rem, pdr)
  | i :: is, sched, rem, pdr =>
    if (sched.getD i default).balance ≤ 1/2 then
      surplusSkip months pd pdi is sched rem pdr
    else if rem ≤ 0 then (sched, rem, pdr)
    else
      let d := sched.getD i default
      let pay := min d.balance rem
      let d' := { d with balance := d.balance - pay }
      let pdr1 := if d'.balance ≤ 1/2 then recordPayoff d' months pd pdi pdr else pdr
      surplusSkip months pd pdi is (sched.set i d') (rem - pay) pdr1

theorem surplusSkip_cons_dead (months : ℕ) (pd : LocalDT) (pdi : PerDebtInterest)
    (i : ℕ) (is : List ℕ) (sched : List SimDebt) (rem : ℚ) (pdr : PerDebtResults)
    (hdead : (sched.getD i default).balance ≤ 1/2) :
    surplusSkip months pd pdi (i :: is) sched rem pdr =
      surplusSkip months pd pdi is sched rem pdr := by
  rw [surplusSkip, if_pos hdead]

theorem surplusSkip_cons_break (months : ℕ) (pd : LocalDT) (pdi : PerDebtInterest)
    (i : ℕ) (is : List ℕ) (sched : List SimDebt) (rem : ℚ) (pdr : PerDebtResults)
    (hdead : ¬ (sched.getD i default).balance ≤ 1/2) (hbrk : rem ≤ 0) :
    surplusSkip months pd pdi (i :: is) sched rem pdr = (sched, rem, pdr) := by
  rw [surplusSkip, if_neg hdead, if_pos hbrk]

theorem surplusSkip_cons_pay (months : ℕ) (pd : LocalDT) (pdi : PerDebtInterest)
    (i : ℕ) (is : List ℕ) (sched : List SimDebt) (rem : ℚ) (pdr : PerDebtResults)
    (hdead : ¬ (sched.getD i default).balance ≤ 1/2) (hbrk : ¬ rem ≤ 0) :
    surplusSkip months pd pdi (i :: is) sched rem pdr =
      surplusSkip months pd pdi is
        (sched.set i { sched.getD i default with
          balance := (sched.getD i default).balance -
            min (sched.getD i default).balance rem })
        (rem - min (sched.getD i default).balance rem)
        (if (sched.getD i default).balance - min (sched.getD i default).balance rem ≤ 1/2
          then recordPayoff
            { sched.getD i default with
              balance := (sched.getD i default).balance -
                min (sched.getD i default).balance rem } months pd pdi pdr
          else pdr) := by
  rw [surplusSkip, if_neg hdead, if_neg hbrk]

theorem surplusPass_cons_break (months : ℕ) (pd : LocalDT) (pdi : PerDebtInterest)
    (i : ℕ) (is : List ℕ) (sched : List SimDebt) (rem : ℚ) (pdr : PerDebtResults)
    (hbrk : rem ≤ 0) :
    surplusPass months pd pdi (i :: is) sched rem pdr = (sched, rem, pdr) := by
  rw [surplusPass, if_pos hbrk]

theorem surplusPass_cons_pay (months : ℕ) (pd : LocalDT) (pdi : PerDebtInterest)
    (i : ℕ) (is : List ℕ) (sched : List SimDebt) (rem : ℚ) (pdr : PerDebtResults)
    (hbrk : ¬ rem ≤ 0) :
    surplusPass months pd pdi (i :: is) sched rem pdr =
      surplusPass months pd pdi is
        (sched.set i { sched.getD i default with
          balance := (sched.getD i default).balance -
            min (sched.getD i default).balance rem })
        (rem - min (sched.getD i default).balance rem)
        (if (sched.getD i default).balance - min (sched.getD i default).balance rem ≤ 1/2
          then recordPayoff
            { sched.getD i default with
              balance := (sched.getD i default).balance -
                min (sched.getD i default).balance rem } months pd pdi pdr
          else pdr) := by
  rw [surplusPass, if_neg hbrk]

theorem surplusSkip_eq_pass (months : ℕ) (pd : LocalDT) (pdi : PerDebtInterest)
    (idxs : List ℕ) :
    ∀ (sched : List SimDebt) (rem : ℚ) (pdr : PerDebtResults), idxs.Nodup →
      surplusPass months pd pdi
        (idxs.filter fun i => decide (1/2 < (sched.getD i default).balance))
          sched rem pdr =
        surplusSkip months pd pdi idxs sched rem pdr := by
  induction idxs with
  | nil => intro sched rem pdr _; rfl
  | cons i is ih =>
    intro sched rem pdr hnd
    have hnotmem : i ∉ is := (List.nodup_cons.mp hnd).1
    have hnd' : is.Nodup := (List.nodup_cons.mp hnd).2
    by_cases halive : 1/2 < (sched.getD i default).balance
    · have hfc : (i :: is).filter
          (fun j => decide (1/2 < (sched.getD j default).balance)) =
          i :: is.filter (fun j => decide (1/2 < (sched.getD j default).balance)) := by
        rw [List.filter_cons, if_pos (decide_eq_true halive)]
      rw [hfc]
      have hdead : ¬ (sched.getD i default).balance ≤ 1/2 := not_le.mpr halive
      by_cases hbrk : rem ≤ 0
      · rw [surplusPass_cons_break months pd pdi i _ sched rem pdr hbrk,
          surplusSkip_cons_break months pd pdi i is sched rem pdr hdead hbrk]
      · rw [surplusPass_cons_pay months pd pdi i _ sched rem pdr hbrk,
          surplusSkip_cons_pay months pd pdi i is sched rem pdr hdead hbrk]
        have hfeq : is.filter (fun j => decide (1/2 < (sched.getD j default).balance)) =
            is.filter (fun j => decide (1/2 <
              ((sched.set i { sched.getD i default with
                balance := (sched.getD i default).balance -
                  min (sched.getD i default).balance rem }).getD j default).balance)) := by
          refine List.filter_congr ?_
          intro j hj
          have hne : i ≠ j := fun hij => hnotmem (hij ▸ hj)
          rw [list_getD_set_ne hne]
        rw [hfeq, ih _ _ _ hnd']
    · have hdead : (sched.getD i default).balance ≤ 1/2 := not_lt.mp halive
      have hfc : (i :: is).filter
          (fun j => decide (1/2 < (sched.getD j default).balance)) =
          is.filter (fun j => decide (1/2 < (sched.getD j default).balance)) := by
        rw [List.filter_cons, if_neg (by simpa using halive)]
      rw [hfc, surplusSkip_cons_dead months pd pdi i is sched rem pdr hdead,
        ih _ _ _ hnd']

theorem surplusSkip_decr (months : ℕ) (pd : LocalDT) (pdi : PerDebtInterest)
    (idxs : List ℕ) :
    ∀ (sched : List SimDebt) (rem : ℚ) (pdr : PerDebtResults),
      DecrL sched (surplusSkip months pd pdi idxs sched rem pdr).1 := by
  induction idxs with
  | nil => intro sched rem pdr; exact decrL_refl _
  | cons i is ih =>
    intro sched rem pdr
    by_cases hdead : (sched.getD i default).balance ≤ 1/2
    · rw [surplusSkip_cons_dead months pd pdi i is sched rem pdr hdead]
      exact ih sched rem pdr
    · by_cases hbrk : rem ≤ 0
      · rw [surplusSkip_cons_break months pd pdi i is sched rem pdr hdead hbrk]
        exact decrL_refl _
      · rw [surplusSkip_cons_pay months pd pdi i is sched rem pdr hdead hbrk]
        refine decrL_trans (forall₂_set_right (decrL_refl sched) i ?_) (ih _ _ _)
        refine ⟨⟨rfl, rfl, rfl, rfl⟩, ?_⟩
        show (sched.getD i default).balance - min (sched.getD i default).balance rem ≤
          (sched.getD i default).balance
        have hbal : 1/2 < (sched.getD i default).balance := not_le.mp hdead
        have hrem : 0 < rem := not_le.mp hbrk
        have : 0 ≤ min (sched.getD i default).balance rem :=
          le_min (by linarith) (by linarith)
        linarith

theorem surplusSkip_rem_nonneg (months : ℕ) (pd : LocalDT) (pdi : PerDebtInterest)
    (idxs : List ℕ) :
    ∀ (sched : List SimDebt) (rem : ℚ) (pdr : PerDebtResults), 0 ≤ rem →
      0 ≤ (surplusSkip months pd pdi idxs sched rem pdr).2.1 := by
  induction idxs with
  | nil => intro sched rem pdr h0; exact h0
  | cons i is ih =>
    intro sched rem pdr h0
    by_cases hdead : (sched.getD i default).balance ≤ 1/2
    · rw [surplusSkip_cons_dead months pd pdi i is sched rem pdr hdead]
      exact ih sched rem pdr h0
    · by_cases hbrk : rem ≤ 0
      · rw [surplusSkip_cons_break months pd pdi i is sched rem pdr hdead hbrk]
        exact h0
      · rw [surplusSkip_cons_pay months pd pdi i is sched rem pdr hdead hbrk]
        exact ih _ _ _ (by linarith [min_le_right (sched.getD i default).balance rem])

theorem surplusSkip_mono (m1 m2 : ℕ) (pd1 pd2 : LocalDT)
    (pdi1 pdi2 : PerDebtInterest) (idxs : List ℕ) :
    ∀ {l m : List SimDebt} {r1 r2 : ℚ} (pdr1 pdr2 : PerDebtResults),
      DomL l m → r1 ≤ r2 → 0 ≤ r1 →
      DomL (surplusSkip m1 pd1 pdi1 idxs l r1 pdr1).1
          (surplusSkip m2 pd2 pdi2 idxs m r2 pdr2).1 ∧
        (surplusSkip m1 pd1 pdi1 idxs l r1 pdr1).2.1 ≤
          (surplusSkip m2 pd2 pdi2 idxs m r2 pdr2).2.1 := by
  induction idxs with
  | nil => exact fun pdr1 pdr2 h hr _ => ⟨h, hr⟩
  | cons i is ih =>
    intro l m r1 r2 pdr1 pdr2 h hr h0
    have hab : dom (l.getD i default) (m.getD i default) :=
      forall₂_getD h (dom_refl default) i
    by_cases hdeadA : (l.getD i default).balance ≤ 1/2
    · have hdeadB : (m.getD i default).balance ≤ 1/2 := dom_dead_right hab hdeadA
      rw [surplusSkip_cons_dead m1 pd1 pdi1 i is l r1 pdr1 hdeadA,
        surplusSkip_cons_dead m2 pd2 pdi2 i is m r2 pdr2 hdeadB]
      exact ih pdr1 pdr2 h hr h0
    · have hbalA : 1/2 < (l.getD i default).balance := not_le.mp hdeadA
      by_cases hbrk1 : r1 ≤ 0
      · rw [surplusSkip_cons_break m1 pd1 pdi1 i is l r1 pdr1 hdeadA hbrk1]
        refine ⟨domL_comp_decrL h (surplusSkip_decr m2 pd2 pdi2 (i :: is) m r2 pdr2), ?_⟩
        have := surplusSkip_rem_nonneg m2 pd2 pdi2 (i :: is) m r2 pdr2 (by linarith)
        linarith
      · have hr1pos : 0 < r1 := not_le.mp hbrk1
        have hbrk2 : ¬ r2 ≤ 0 := by push_neg; linarith
        rw [surplusSkip_cons_pay m1 pd1 pdi1 i is l r1 pdr1 hdeadA hbrk1]
        have hpay1 : 0 ≤ min (l.getD i default).balance r1 :=
          le_min (by linarith) (by linarith)
        have hpay1' : min (l.getD i default).balance r1 ≤ r1 := min_le_right _ _
        by_cases hdeadB : (m.getD i default).balance ≤ 1/2
        · rw [surplusSkip_cons_dead m2 pd2 pdi2 i is m r2 pdr2 hdeadB]
          have hset : DomL (l.set i { l.getD i default with
              balance := (l.getD i default).balance -
                min (l.getD i default).balance r1 }) m := by
            refine forall₂_set_left h i ⟨?_, Or.inl hdeadB⟩
            exact shapeEq_trans ⟨rfl, rfl, rfl, rfl⟩ hab.1
          have hrA : r1 - min (l.getD i default).balance r1 ≤ r2 := by linarith
          have h0A : 0 ≤ r1 - min (l.getD i default).balance r1 := by linarith
          exact ih _ pdr2 hset hrA h0A
        · have hbalB : 1/2 < (m.getD i default).balance := not_le.mp hdeadB
          have hba : (m.getD i default).balance ≤ (l.getD i default).balance :=
            (dom_alive_left hab hbalB).1
          rw [surplusSkip_cons_pay m2 pd2 pdi2 i is m r2 pdr2 hdeadB hbrk2]
          have hbal2 : (m.getD i default).balance -
              min (m.getD i default).balance r2 ≤
              (l.getD i default).balance - min (l.getD i default).balance r1 :=
            surplus_step_balance_mono hba hr
          have hrem2 : r1 - min (l.getD i default).balance r1 ≤
              r2 - min (m.getD i default).balance r2 :=
            surplus_step_rem_mono hba hr
          have hset : DomL
              (l.set i { l.getD i default with
                balance := (l.getD i default).balance -
                  min (l.getD i default).balance r1 })
              (m.set i { m.getD i default with
                balance := (m.getD i default).balance -
                  min (m.getD i default).balance r2 }) := by
            refine forall₂_set_both h ⟨?_, Or.inr hbal2⟩ i
            exact shapeEq_trans ⟨rfl, rfl, rfl, rfl⟩
              (shapeEq_trans hab.1 ⟨rfl, rfl, rfl, rfl⟩)
          have h0A : 0 ≤ r1 - min (l.getD i default).balance r1 := by linarith
          exact ih _ _ hset hrem2 h0A

theorem surplusPass_sorted_eq_skip (months : ℕ) (pd : LocalDT) (pdi : PerDebtInterest)
    (le : ℕ → ℕ → Bool) (htot : ∀ i j, le i j = true ∨ le j i = true)
    (htr : ∀ i j k, le i j = true → le j k = true → le i k = true)
    (sched : List SimDebt) (rem : ℚ) (pdr : PerDebtResults) :
    surplusPass months pd pdi (sortByJs le (aliveIdxs sched)) sched rem pdr =
      surplusSkip months pd pdi (sortByJs le (List.range sched.length))
        sched rem pdr := by
  have h1 : aliveIdxs sched = (List.range sched.length).filter
      (fun i => decide (1/2 < (sched.getD i default).balance)) := rfl
  rw [h1, sortByJs_filter_comm htot htr,
    surplusSkip_eq_pass months pd pdi _ sched rem pdr
      (sortByJs_nodup (List.nodup_range _))]

theorem orderLe_getD_congr {strategy : DebtPayoffStrategy}
    (hsh : cmpShapeInvariant strategy) {l m : List SimDebt} (h : ShapeL l m) :
    (fun i j => orderLe strategy (l.getD i default) (l.getD j default)) =
      (fun i j => orderLe strategy (m.getD i default) (m.getD j default)) := by
  funext i j
  exact hsh _ _ _ _ (forall₂_getD h (shapeEq_refl default) i)
    (forall₂_getD h (shapeEq_refl default) j)

theorem surplus_stage_mono {strategy : DebtPayoffStrategy}
    (htot : cmpTotal strategy) (htr : cmpTrans strategy)
    (hsh : cmpShapeInvariant strategy) (mo1 mo2 : ℕ) (pd1 pd2 : LocalDT)
    (pdi1 pdi2 : PerDebtInterest) {l m : List SimDebt} {r1 r2 : ℚ}
    (pdr1 pdr2 : PerDebtResults) (h : DomL l m) (hr : r1 ≤ r2) (h01 : 0 ≤ r1) :
    DomL (if 1/2 < r1 then surplusPass mo1 pd1 pdi1
        (sortByJs (fun i j => orderLe strategy (l.getD i default) (l.getD j default))
          (aliveIdxs l)) l r1 pdr1
      else (l, r1, pdr1)).1
      (if 1/2 < r2 then surplusPass mo2 pd2 pdi2
        (sortByJs (fun i j => orderLe strategy (m.getD i default) (m.getD j default))
          (aliveIdxs m)) m r2 pdr2
      else (m, r2, pdr2)).1 := by
  by_cases hs1 : 1/2 < r1
  · have hs2 : 1/2 < r2 := lt_of_lt_of_le hs1 hr
    rw [if_pos hs1, if_pos hs2,
      surplusPass_sorted_eq_skip mo1 pd1 pdi1
        (fun i j => orderLe strategy (l.getD i default) (l.getD j default))
        (fun i j => htot _ _) (fun i j k => htr _ _ _) l r1 pdr1,
      surplusPass_sorted_eq_skip mo2 pd2 pdi2
        (fun i j => orderLe strategy (m.getD i default) (m.getD j default))
        (fun i j => htot _ _) (fun i j k => htr _ _ _) m r2 pdr2,
      orderLe_getD_congr hsh (domL_shapeL h), List.Forall₂.length_eq h]
    exact (surplusSkip_mono mo1 mo2 pd1 pd2 pdi1 pdi2 _ pdr1 pdr2 h hr h01).1
  · rw [if_neg hs1]
    by_cases hs2 : 1/2 < r2
    · rw [if_pos hs2,
        surplusPass_sorted_eq_skip mo2 pd2 pdi2
          (fun i j => orderLe strategy (m.getD i default) (m.getD j default))
          (fun i j => htot _ _) (fun i j k => htr _ _ _) m r2 pdr2]
      exact domL_comp_decrL h (surplusSkip_decr mo2 pd2 pdi2 _ m r2 pdr2)
    · rw [if_neg hs2]
      exact h

theorem monthPass_mono {strategy : DebtPayoffStrategy}
    (htot : cmpTotal strategy) (htr : cmpTrans strategy)
    (hsh : cmpShapeInvariant strategy) {b1 b2 : ℚ} (hb : b1 ≤ b2) (h0 : 0 ≤ b1)
    (sd1 sd2 : LocalDT) (mo1 mo2 : ℕ) (st1 st2 : SimState)
    (h : DomL st1.scheduled st2.scheduled)
    (ht : st2.totalInterestPaid ≤ st1.totalInterestPaid)
    (hmp : ∀ d ∈ st2.scheduled, 0 ≤ d.minPay) :
    DomL (monthPass strategy b1 sd1 mo1 st1).scheduled
        (monthPass strategy b2 sd2 mo2 st2).scheduled ∧
      (monthPass strategy b2 sd2 mo2 st2).totalInterestPaid ≤
        (monthPass strategy b1 sd1 mo1 st1).totalInterestPaid := by
  obtain ⟨hD, hR⟩ := minPaymentPass_mono mo1 mo2 (payoffMonthToDate sd1 mo1)
    (payoffMonthToDate sd2 mo2)
    (interestPass st1.scheduled (st1.pdi, st1.totalInterestPaid)).1
    (interestPass st2.scheduled (st2.pdi, st2.totalInterestPaid)).1 h
    st1.pdr st2.pdr hb h0 hmp
  have h0r1 := minPaymentPass_rem_nonneg mo1 (payoffMonthToDate sd1 mo1)
    (interestPass st1.scheduled (st1.pdi, st1.totalInterestPaid)).1
    st1.scheduled b1 st1.pdr h0
  constructor
  · dsimp only [monthPass]
    exact surplus_stage_mono htot htr hsh mo1 mo2 _ _ _ _ _ _ hD hR h0r1
  · dsimp only [monthPass]
    exact interestPass_mono h _ _ _ _ ht

theorem monthPass_total_ge (strategy : DebtPayoffStrategy) (budget : ℚ)
    (startDate : LocalDT) (months : ℕ) (st : SimState) :
    st.totalInterestPaid ≤
      (monthPass strategy budget startDate months st).totalInterestPaid := by
  dsimp only [monthPass]
  exact interestPass_total_ge _ _ _

theorem simLoop_months_ge (strategy : DebtPayoffStrategy) (budget : ℚ)
    (startDate : LocalDT) (fuel : ℕ) :
    ∀ (months : ℕ) (st : SimState),
      months ≤ (simLoop strategy budget startDate fuel months st).1 := by
  induction fuel with
  | zero => exact fun _ _ => le_refl _
  | succ n ih =>
    intro months st
    rw [simLoop]
    split_ifs
    · exact le_trans (Nat.le_succ months) (ih _ _)
    · exact le_refl _

theorem simLoop_total_ge (strategy : DebtPayoffStrategy) (budget : ℚ)
    (startDate : LocalDT) (fuel : ℕ) :
    ∀ (months : ℕ) (st : SimState),
      st.totalInterestPaid ≤
        ((simLoop strategy budget startDate fuel months st).2).totalInterestPaid := by
  induction fuel with
  | zero => exact fun _ _ => le_refl _
  | succ n ih =>
    intro months st
    rw [simLoop]
    split_ifs
    · exact le_trans (monthPass_total_ge strategy budget startDate (months+1) st)
        (ih _ _)
    · exact le_refl _

theorem minPay_nonneg_of_map_eq {l m : List SimDebt}
    (h : m.map (·.minPay) = l.map (·.minPay)) (hl : ∀ d ∈ l, 0 ≤ d.minPay) :
    ∀ d ∈ m, 0 ≤ d.minPay := by
  intro d hd
  have hmem : d.minPay ∈ m.map (·.minPay) := List.mem_map_of_mem _ hd
  rw [h] at hmem
  obtain ⟨e, he, heq⟩ := List.mem_map.mp hmem
  rw [← heq]
  exact hl e he

theorem simLoop_mono {strategy : DebtPayoffStrategy}
    (htot : cmpTotal strategy) (htr : cmpTrans strategy)
    (hsh : cmpShapeInvariant strategy) {b1 b2 : ℚ} (hb : b1 ≤ b2) (h0 : 0 ≤ b1)
    (sd1 sd2 : LocalDT) (fuel : ℕ) :
    ∀ (months : ℕ) (st1 st2 : SimState),
      DomL st1.scheduled st2.scheduled →
      st2.totalInterestPaid ≤ st1.totalInterestPaid →
      (∀ d ∈ st2.scheduled, 0 ≤ d.minPay) →
      DomL ((simLoop strategy b1 sd1 fuel months st1).2).scheduled
          ((simLoop strategy b2 sd2 fuel months st2).2).scheduled ∧
        ((simLoop strategy b2 sd2 fuel months st2).2).totalInterestPaid ≤
          ((simLoop strategy b1 sd1 fuel months st1).2).totalInterestPaid ∧
        (simLoop strategy b2 sd2 fuel months st2).1 ≤
          (simLoop strategy b1 sd1 fuel months st1).1 := by
  induction fuel with
  | zero => exact fun months st1 st2 h ht _ => ⟨h, ht, le_refl _⟩
  | succ n ih =>
    intro months st1 st2 h ht hmp
    rw [simLoop, simLoop]
    by_cases h2 : anyOpen st2.scheduled
    · have h1 : anyOpen st1.scheduled := anyOpen_of_domL h h2
      rw [if_pos h1, if_pos h2]
      obtain ⟨hD, hT⟩ := monthPass_mono htot htr hsh hb h0 sd1 sd2
        (months+1) (months+1) st1 st2 h ht hmp
      exact ih (months+1) _ _ hD hT
        (minPay_nonneg_of_map_eq (monthPass_minPay_map strategy b2 sd2 (months+1) st2) hmp)
    · rw [if_neg h2]
      by_cases h1 : anyOpen st1.scheduled
      · rw [if_pos h1]
        refine ⟨?_, ?_, ?_⟩
        · refine domL_of_shapeL_dead ?_ ?_
          · exact shapeL_trans (shapeL_symm (shapeL_trans
              (monthPass_shape strategy b1 sd1 (months+1) st1)
              (simLoop_shape strategy b1 sd1 n (months+1) _))) (domL_shapeL h)
          · intro d hd
            by_contra hopen
            exact h2 (anyOpen_iff _ |>.mpr ⟨d, hd, not_le.mp hopen⟩)
        · exact le_trans ht (le_trans
            (monthPass_total_ge strategy b1 sd1 (months+1) st1)
            (simLoop_total_ge strategy b1 sd1 n (months+1) _))
        · exact le_trans (Nat.le_succ months)
            (simLoop_months_ge strategy b1 sd1 n (months+1) _)
      · rw [if_neg h1]
        exact ⟨h, ht, le_refl _⟩

theorem scheduledOf_minPay_nonneg (debts : List Debt) (f : Debt → ℚ) :
    ∀ d ∈ scheduledOf debts f, 0 ≤ d.minPay := by
  intro d hd
  simp only [scheduledOf, List.mem_map] at hd
  obtain ⟨e, _, rfl⟩ := hd
  exact le_max_left 0 _

/-- **C4 (amended)** — under the avalanche and dueDate strategies (whose
fixed-order comparators are total, transitive and balance-independent),
with the budget of the smaller run positive (or no debt scheduled),
raising the extra principal budget never increases `totalInterestPaid`,
and never increases `months` when both runs report one.  Under the
snowball strategy the interest half is false (see the counterexample):
its comparator reads the mutating balances, so a larger budget can
reorder the surplus targets and accrue more rounded interest. -/
theorem simulateDebtPayoff_extra_budget_monotone (sysNow : LocalDT)
    (render : LocalDT → String) (debts : List Debt)
    (options : DebtPayoffSimulationOptions) (e1 e2 : ℚ)
    (hstrat : options.strategy = DebtPayoffStrategy.avalanche ∨
      options.strategy = DebtPayoffStrategy.dueDate)
    (he : e1 ≤ e2)
    (hb : 0 < budgetOf debts { options with extraPrincipalBudget := some e1 } ∨
      scheduledOf debts (minFallbackOf options) = []) :
    (simulateDebtPayoff sysNow render debts
        { options with extraPrincipalBudget := some e2 }).totalInterestPaid ≤
      (simulateDebtPayoff sysNow render debts
        { options with extraPrincipalBudget := some e1 }).totalInterestPaid ∧
    ∀ m1 m2 : ℕ,
      (simulateDebtPayoff sysNow render debts
        { options with extraPrincipalBudget := some e1 }).months = some m1 →
      (simulateDebtPayoff sysNow render debts
        { options with extraPrincipalBudget := some e2 }).months = some m2 →
      m2 ≤ m1 := by
  have hct : cmpTotal options.strategy := by
    rcases hstrat with h | h
    · rw [h]; exact avalanche_total
    · rw [h]; exact dueDate_total
  have hctr : cmpTrans options.strategy := by
    rcases hstrat with h | h
    · rw [h]; exact avalanche_trans
    · rw [h]; exact dueDate_trans
  have hcsh : cmpShapeInvariant options.strategy := by
    rcases hstrat with h | h
    · rw [h]; exact avalanche_shapeInvariant
    · rw [h]; exact dueDate_shapeInvariant
  simp only [simulateDebtPayoff, simulateFull, budgetOf, minFallbackOf,
    Option.getD_some] at hb ⊢
  by_cases hEmpty :
      (scheduledOf debts (options.minPaymentFallback.getD fun _ => 0)).isEmpty
  · rw [if_pos hEmpty, if_pos hEmpty]
    refine ⟨le_refl _, fun m1 m2 h1 h2 => ?_⟩
    injection h1 with h1'
    injection h2 with h2'
    omega
  · have hsnil : ¬ scheduledOf debts (options.minPaymentFallback.getD fun _ => 0) = [] := by
      intro hn
      rw [hn] at hEmpty
      exact hEmpty rfl
    have hB1 : 0 <
        ((scheduledOf debts (options.minPaymentFallback.getD fun _ => 0)).map
          (·.minPay)).sum + max 0 e1 := hb.resolve_right hsnil
    have hβ :
        ((scheduledOf debts (options.minPaymentFallback.getD fun _ => 0)).map
          (·.minPay)).sum + max 0 e1 ≤
        ((scheduledOf debts (options.minPaymentFallback.getD fun _ => 0)).map
          (·.minPay)).sum + max 0 e2 :=
      add_le_add_left (max_le_max (le_refl 0) he) _
    rw [if_neg hEmpty, if_neg hEmpty, if_neg (not_le.mpr hB1),
      if_neg (not_le.mpr (lt_of_lt_of_le hB1 hβ))]
    obtain ⟨hD, hT, hM⟩ := simLoop_mono hct hctr hcsh hβ (le_of_lt hB1)
      (options.startDate.getD sysNow) (options.startDate.getD sysNow)
      (max 0 (options.maxMonths.getD 600)).toNat 0
      ⟨scheduledOf debts (options.minPaymentFallback.getD fun _ => 0),
        (scheduledOf debts (options.minPaymentFallback.getD fun _ => 0)).foldl
          (fun m d => alistPut d.id 0 m) [], 0, [], false⟩
      ⟨scheduledOf debts (options.minPaymentFallback.getD fun _ => 0),
        (scheduledOf debts (options.minPaymentFallback.getD fun _ => 0)).foldl
          (fun m d => alistPut d.id 0 m) [], 0, [], false⟩
      (domL_refl _) (le_refl _) (scheduledOf_minPay_nonneg debts _)
    constructor
    · split_ifs <;> exact hT
    · intro m1 m2 h1 h2
      split_ifs at h1 h2 <;>
        first
          | exact Option.noConfusion h1
          | exact Option.noConfusion h2
          | (injection h1 with h1'
             injection h2 with h2'
             omega)

def c4cstart : LocalDT := ⟨2024, 0, 10, 0⟩

def c4crender : LocalDT → String := fun _ => ""

def c4cdebts : List Debt :=
  [⟨"a", 29, none, .payable, false, some 12, some 2⟩,
   ⟨"b", 46, none, .payable, false, some 240, some 10⟩]

def c4copts (e : ℚ) : DebtPayoffSimulationOptions :=
  { strategy := .snowball, extraPrincipalBudget := some e,
    startDate := some c4cstart }

/-- Under the snowball strategy, raising the extra budget from 4 to 5
increases the rounded interest total from 24 to 25 (both runs finish in the
same 5 months), refuting the all-strategy monotonicity claim. -/
theorem simulateDebtPayoff_interest_not_monotone_snowball :
    (0 : ℚ) ≤ 4 ∧ (4 : ℚ) ≤ 5 ∧
    (simulateDebtPayoff c4cstart c4crender c4cdebts (c4copts 4)).totalInterestPaid = 24 ∧
    (simulateDebtPayoff c4cstart c4crender c4cdebts (c4copts 5)).totalInterestPaid = 25 ∧
    (simulateDebtPayoff c4cstart c4crender c4cdebts (c4copts 4)).months = some 5 ∧
    (simulateDebtPayoff c4cstart c4crender c4cdebts (c4copts 5)).months = some 5 := by
  decide

def c4wstart : LocalDT := ⟨2025, 2, 1, 0⟩

def c4wrender : LocalDT → String := fun _ => ""

def c4wdebts : List Debt :=
  [⟨"a", 100, none, .payable, false, some 0, some 50⟩]

def c4wopts : DebtPayoffSimulationOptions :=
  { strategy := .avalanche, startDate := some c4wstart }

theorem simulateDebtPayoff_extra_budget_monotone_witness :
    (simulateDebtPayoff c4wstart c4wrender c4wdebts
        { c4wopts with extraPrincipalBudget := some 7 }).totalInterestPaid ≤
      (simulateDebtPayoff c4wstart c4wrender c4wdebts
        { c4wopts with extraPrincipalBudget := some 3 }).totalInterestPaid ∧
    (2 : ℕ) ≤ 2 :=
  ⟨(simulateDebtPayoff_extra_budget_monotone c4wstart c4wrender c4wdebts c4wopts
      3 7 (Or.inl rfl) (by norm_num) (Or.inl (by decide))).1,
   (simulateDebtPayoff_extra_budget_monotone c4wstart c4wrender c4wdebts c4wopts
      3 7 (Or.inl rfl) (by norm_num) (Or.inl (by decide))).2 2 2
     (by decide) (by decide)⟩

end SmartSpend
